import Mathlib

/-!
Shallow embedding of the derivatives-analysis repository's core logic:
the recomputation engine `process_data` (two revisions exist in the source,
one in `src/utils/calculations.py` and one in `src/app.py`) and the
raw-table merge step of `src/app.py` (`save_to_database`, lines 219-226,
and the Submit & Process handler, lines 707-728).

Modelling conventions:
* Calendar dates are ordinals (`Nat`); `pd.to_datetime` parsing happens
  before the modelled pipeline, so rows carry already-parsed dates.
* Numeric cells are IEEE-style values `FVal`: `nan` (pandas NaN/missing),
  a signed infinity (what float division by zero produces), or an exact
  finite value (`Rat`).  Raw position fields are finite numbers (`Rat`);
  the optional raw `Nifty Spot` field is an `FVal` (`nan` when absent).
* pandas operations are modelled on ordered lists of rows:
  `sort_values(['Date','Client Type'], ascending=[False,True])` as a
  stable insertion sort; `groupby('Client Type').diff(periods=-1)` and
  `shift(-1)` as a search for the next same-category row strictly below
  the current one; `groupby('Date')` aggregations as list filters.
-/

/-- A pandas float cell: NaN, a signed infinity, or an exact finite value. -/
inductive FVal where
  | nan : FVal
  | inf (pos : Bool) : FVal
  | num (q : ℚ) : FVal
deriving DecidableEq

namespace FVal

/-- IEEE-style subtraction as numpy performs it on float cells. -/
def sub : FVal → FVal → FVal
  | nan, _ => nan
  | _, nan => nan
  | num a, num b => num (a - b)
  | inf s, num _ => inf s
  | num _, inf s => inf (!s)
  | inf s, inf t => if s = t then nan else inf s

/-- IEEE-style multiplication as numpy performs it on float cells. -/
def mul : FVal → FVal → FVal
  | nan, _ => nan
  | _, nan => nan
  | num a, num b => num (a * b)
  | inf s, num q => if q = 0 then nan else inf (s == decide (0 < q))
  | num q, inf s => if q = 0 then nan else inf (s == decide (0 < q))
  | inf s, inf t => inf (s == t)

/-- IEEE-style division as numpy performs it on float cells: a finite
value divided by zero is NaN when the numerator is zero and a signed
infinity otherwise (it is not an error and not null). -/
def div : FVal → FVal → FVal
  | nan, _ => nan
  | _, nan => nan
  | num a, num b =>
      if b = 0 then (if a = 0 then nan else inf (decide (0 < a))) else num (a / b)
  | inf s, num q => inf (s == decide (0 ≤ q))
  | num _, inf _ => num 0
  | inf _, inf _ => nan

end FVal

/-- One raw observation row, the shape `process_data` receives: the
columns of the uploaded participant file (`Client Type` plus the numeric
position columns) with the parsed `Date` and the optional `Nifty Spot`. -/
structure RawRow where
  date : ℕ
  clientType : String
  futureIndexLong : ℚ := 0
  futureIndexShort : ℚ := 0
  futureStockLong : ℚ := 0
  futureStockShort : ℚ := 0
  optionIndexCallLong : ℚ := 0
  optionIndexPutLong : ℚ := 0
  optionIndexCallShort : ℚ := 0
  optionIndexPutShort : ℚ := 0
  optionStockCallLong : ℚ := 0
  optionStockPutLong : ℚ := 0
  optionStockCallShort : ℚ := 0
  optionStockPutShort : ℚ := 0
  totalLongContracts : ℚ := 0
  totalShortContracts : ℚ := 0
  niftySpot : FVal := .nan
deriving DecidableEq

/-- The aggregate-row test used by `src/utils/calculations.py`
(`df['Client Type'].str.upper() != 'TOTAL'` defines the complement). -/
def RawRow.isTotal (r : RawRow) : Bool := r.clientType.toUpper == "TOTAL"

/-- The sort key of `df.sort_values(by=['Date', 'Client Type'],
ascending=[False, True])`: date descending, then category ascending. -/
def rowLE (a b : RawRow) : Prop :=
  b.date < a.date ∨ (a.date = b.date ∧ a.clientType ≤ b.clientType)

instance instDecidableRowLE (a b : RawRow) : Decidable (rowLE a b) := by
  unfold rowLE
  infer_instance

/-- Stable insertion of a row in front of the first row it sorts
no-later than; together with `insertionSort` this models the stable
multi-column sort pandas performs in `sort_values`. -/
def insertRow (x : RawRow) : List RawRow → List RawRow
  | [] => [x]
  | y :: ys => if rowLE x y then x :: y :: ys else y :: insertRow x ys

/-- Stable sort by `(Date descending, Client Type ascending)`. -/
def insertionSort : List RawRow → List RawRow
  | [] => []
  | x :: xs => insertRow x (insertionSort xs)

/-- The latest date of the table (`df['Date'].max()`). -/
def dateMax (rows : List RawRow) : ℕ := rows.foldr (fun r m => max r.date m) 0

/-- The row-level effect of the spot-price injection: a row of the
latest date `m` gets the supplied spot price, any other row is kept
untouched. -/
def spotSet (spot : ℚ) (m : ℕ) (r : RawRow) : RawRow :=
  if r.date = m then { r with niftySpot := .num spot } else r

/-- Spot-price injection (`df.loc[df['Date'] == latest_date, 'Nifty Spot']
= current_nifty_spot`): every row of the latest date gets the supplied
spot price; every other row keeps its raw `Nifty Spot` cell. -/
def injectSpot (spot : ℚ) (rows : List RawRow) : List RawRow :=
  rows.map (spotSet spot (dateMax rows))

/-- The working table both `process_data` revisions compute on: the rows
sorted newest-first and with the current spot price injected. -/
def sortedView (rows : List RawRow) (spot : ℚ) : List RawRow :=
  injectSpot spot (insertionSort rows)

/-- The next row of category `c` strictly below the current row, together
with the part of the table below it; this is how
`groupby('Client Type').diff(periods=-1)` and `shift(-1)` pick the
operand row on the sorted table. -/
def findPrevT (c : String) : List RawRow → Option (RawRow × List RawRow)
  | [] => none
  | r :: rs => if r.clientType = c then some (r, rs) else findPrevT c rs

/-- `groupby('Client Type')[col].diff(periods=-1)` at one row of the
sorted table, for a finite-valued column `f`: the row's value minus the
next same-category row's value, NaN when no such row exists. -/
def qDiff (f : RawRow → ℚ) (r : RawRow) (rest : List RawRow) : FVal :=
  match findPrevT r.clientType rest with
  | none => .nan
  | some (p, _) => .num (f r - f p)

/-- `groupby('Client Type')[col].shift(-1)` at one row of the sorted
table: the next same-category row's value, NaN when none exists. -/
def prevShift (f : RawRow → ℚ) (r : RawRow) (rest : List RawRow) : FVal :=
  match findPrevT r.clientType rest with
  | none => .nan
  | some (p, _) => .num (f p)

/-- `Abs Change Call`: `Option Index Call Long - Option Index Call Short`. -/
def absChangeCallVal (r : RawRow) : ℚ := r.optionIndexCallLong - r.optionIndexCallShort

/-- `Abs Change Put`: `Option Index Put Long - Option Index Put Short`. -/
def absChangePutVal (r : RawRow) : ℚ := r.optionIndexPutLong - r.optionIndexPutShort

/-- `Option NET`: `(Call Long + Put Short) - (Put Long + Call Short)`. -/
def optionNETVal (r : RawRow) : ℚ :=
  (r.optionIndexCallLong + r.optionIndexPutShort) - (r.optionIndexPutLong + r.optionIndexCallShort)

/-- `Future Net`: `Future Index Long - Future Index Short`. -/
def futureNetVal (r : RawRow) : ℚ := r.futureIndexLong - r.futureIndexShort

/-- `Stk Fut Net`: `Future Stock Long - Future Stock Short`. -/
def stkFutNetVal (r : RawRow) : ℚ := r.futureStockLong - r.futureStockShort

/-- The `NET DIFF` cell at one row: `NET CALL (CoC) - NET PUT (CoC)`. -/
def netDiffAt (r : RawRow) (rest : List RawRow) : FVal :=
  FVal.sub (qDiff absChangeCallVal r rest) (qDiff absChangePutVal r rest)

/-- The `Option ROC` cell at one row: the per-category `diff(periods=-1)`
of the `NET DIFF` column, so the next same-category row's own `NET DIFF`
is recomputed at its own position. -/
def optionROCAt (r : RawRow) (rest : List RawRow) : FVal :=
  match findPrevT r.clientType rest with
  | none => .nan
  | some (p, ptail) => FVal.sub (netDiffAt r rest) (netDiffAt p ptail)

/-- A percentage-change cell (`Fut Long %` etc.): the already computed
diff cell divided by the `shift(-1)` cell, times 100. -/
def pctAt (f : RawRow → ℚ) (r : RawRow) (rest : List RawRow) : FVal :=
  FVal.mul (FVal.div (qDiff f r rest) (prevShift f r rest)) (.num 100)

/-- The long/short ratio lambda of both revisions:
`long / short if short != 0 else 0`. -/
def lsRatio (lng sht : ℚ) : ℚ := if sht ≠ 0 then lng / sht else 0

/-- The `Nifty Diff` cell: per-category `diff(periods=-1)` of the
(possibly NaN) `Nifty Spot` column, applied to every row with no
aggregate-row mask (`src/utils/calculations.py`, line 146). -/
def spotDiffAt (r : RawRow) (rest : List RawRow) : FVal :=
  match findPrevT r.clientType rest with
  | none => .nan
  | some (p, _) => FVal.sub r.niftySpot p.niftySpot

/-- The `Future Total Long %` denominator of `src/utils/calculations.py`
(lines 150-160): if the table holds any aggregate `TOTAL` row, the first
`TOTAL` row of the given date supplies it (NaN for a date with no `TOTAL`
row, from the `.map` of a missing key); only when the whole table has no
`TOTAL` row at all is it the per-date sum over the non-aggregate rows. -/
def totalLongDenom (full : List RawRow) (d : ℕ) : FVal :=
  let totals := full.filter (fun x => x.isTotal)
  if totals.isEmpty then
    .num (((full.filter (fun x => !x.isTotal && x.date == d)).map
      (fun x => x.futureIndexLong)).sum)
  else
    match totals.find? (fun x => x.date == d) with
    | some t => .num t.futureIndexLong
    | none => .nan

/-- The `Future Total Short %` denominator, same shape as
`totalLongDenom` over `Future Index Short`. -/
def totalShortDenom (full : List RawRow) (d : ℕ) : FVal :=
  let totals := full.filter (fun x => x.isTotal)
  if totals.isEmpty then
    .num (((full.filter (fun x => !x.isTotal && x.date == d)).map
      (fun x => x.futureIndexShort)).sum)
  else
    match totals.find? (fun x => x.date == d) with
    | some t => .num t.futureIndexShort
    | none => .nan

/-- A cross-category share cell: the row's value divided by the date's
denominator, times 100. -/
def sharePct (v : ℚ) (denom : FVal) : FVal :=
  FVal.mul (FVal.div (.num v) denom) (.num 100)

/-- `df.groupby('Date')[col].transform('sum')` as used by the `app.py`
revision (lines 529-530): the sum over every row of the date, aggregate
`TOTAL` rows included. -/
def dateSumLong (full : List RawRow) (d : ℕ) : ℚ :=
  ((full.filter (fun x => x.date == d)).map (fun x => x.futureIndexLong)).sum

/-- Per-date sum of `Future Index Short` over every row of the date. -/
def dateSumShort (full : List RawRow) (d : ℕ) : ℚ :=
  ((full.filter (fun x => x.date == d)).map (fun x => x.futureIndexShort)).sum

/-- One fully derived output row: the raw row (spot price already
injected) plus every computed column of `process_data`. -/
structure DerivedRow where
  raw : RawRow
  absChangeCall : ℚ
  absChangePut : ℚ
  optionNET : ℚ
  netCallCoC : FVal
  netPutCoC : FVal
  netDIFF : FVal
  optionROC : FVal
  futureNet : ℚ
  futureROC : FVal
  futAbsChgLong : FVal
  futAbsChgShort : FVal
  futLongPct : FVal
  futShortPct : FVal
  futLSRatio : ℚ
  stkFutNet : ℚ
  stkFutROC : FVal
  stkAbsChgLong : FVal
  stkAbsChgShort : FVal
  stkLongPct : FVal
  stkShortPct : FVal
  stkLSRatio : ℚ
  niftyDiff : FVal
  futureTotalLongPct : FVal
  futureTotalShortPct : FVal
deriving DecidableEq

/-- One derived row of the consolidated engine
(`src/utils/calculations.py`, `process_data`): every per-category diff
and percentage-change column is masked to NaN on aggregate `TOTAL` rows
(`non_total_mask`), while `Nifty Diff`, both L/S ratios and the share
columns are computed for every row. -/
def mkDerivedCalc (full : List RawRow) (r : RawRow) (rest : List RawRow) : DerivedRow where
  raw := r
  absChangeCall := absChangeCallVal r
  absChangePut := absChangePutVal r
  optionNET := optionNETVal r
  netCallCoC := if r.isTotal then .nan else qDiff absChangeCallVal r rest
  netPutCoC := if r.isTotal then .nan else qDiff absChangePutVal r rest
  netDIFF := if r.isTotal then .nan else netDiffAt r rest
  optionROC := if r.isTotal then .nan else optionROCAt r rest
  futureNet := futureNetVal r
  futureROC := if r.isTotal then .nan else qDiff futureNetVal r rest
  futAbsChgLong := if r.isTotal then .nan else qDiff (fun x => x.futureIndexLong) r rest
  futAbsChgShort := if r.isTotal then .nan else qDiff (fun x => x.futureIndexShort) r rest
  futLongPct := if r.isTotal then .nan else pctAt (fun x => x.futureIndexLong) r rest
  futShortPct := if r.isTotal then .nan else pctAt (fun x => x.futureIndexShort) r rest
  futLSRatio := lsRatio r.futureIndexLong r.futureIndexShort
  stkFutNet := stkFutNetVal r
  stkFutROC := if r.isTotal then .nan else qDiff stkFutNetVal r rest
  stkAbsChgLong := if r.isTotal then .nan else qDiff (fun x => x.futureStockLong) r rest
  stkAbsChgShort := if r.isTotal then .nan else qDiff (fun x => x.futureStockShort) r rest
  stkLongPct := if r.isTotal then .nan else pctAt (fun x => x.futureStockLong) r rest
  stkShortPct := if r.isTotal then .nan else pctAt (fun x => x.futureStockShort) r rest
  stkLSRatio := lsRatio r.futureStockLong r.futureStockShort
  niftyDiff := spotDiffAt r rest
  futureTotalLongPct := sharePct r.futureIndexLong (totalLongDenom full r.date)
  futureTotalShortPct := sharePct r.futureIndexShort (totalShortDenom full r.date)

/-- One derived row of the `src/app.py` revision of `process_data`
(lines 469-532): no aggregate-row mask anywhere, and the share
denominators are the per-date `transform('sum')` over every row. -/
def mkDerivedApp (full : List RawRow) (r : RawRow) (rest : List RawRow) : DerivedRow where
  raw := r
  absChangeCall := absChangeCallVal r
  absChangePut := absChangePutVal r
  optionNET := optionNETVal r
  netCallCoC := qDiff absChangeCallVal r rest
  netPutCoC := qDiff absChangePutVal r rest
  netDIFF := netDiffAt r rest
  optionROC := optionROCAt r rest
  futureNet := futureNetVal r
  futureROC := qDiff futureNetVal r rest
  futAbsChgLong := qDiff (fun x => x.futureIndexLong) r rest
  futAbsChgShort := qDiff (fun x => x.futureIndexShort) r rest
  futLongPct := pctAt (fun x => x.futureIndexLong) r rest
  futShortPct := pctAt (fun x => x.futureIndexShort) r rest
  futLSRatio := lsRatio r.futureIndexLong r.futureIndexShort
  stkFutNet := stkFutNetVal r
  stkFutROC := qDiff stkFutNetVal r rest
  stkAbsChgLong := qDiff (fun x => x.futureStockLong) r rest
  stkAbsChgShort := qDiff (fun x => x.futureStockShort) r rest
  stkLongPct := pctAt (fun x => x.futureStockLong) r rest
  stkShortPct := pctAt (fun x => x.futureStockShort) r rest
  stkLSRatio := lsRatio r.futureStockLong r.futureStockShort
  niftyDiff := spotDiffAt r rest
  futureTotalLongPct := sharePct r.futureIndexLong (.num (dateSumLong full r.date))
  futureTotalShortPct := sharePct r.futureIndexShort (.num (dateSumShort full r.date))

/-- Row-wise traversal of the sorted table: each row is derived from
itself, the rows strictly below it (where its per-category predecessors
live) and the full table (for the per-date share denominators). -/
def deriveWith (mk : List RawRow → RawRow → List RawRow → DerivedRow)
    (full : List RawRow) : List RawRow → List DerivedRow
  | [] => []
  | r :: rest => mk full r rest :: deriveWith mk full rest

namespace Calculations

/-- `process_data` of `src/utils/calculations.py` (lines 48-169): sort
newest-first, inject the current spot price on the latest date, then
compute every derived column with the aggregate-row mask. -/
def process_data (rows : List RawRow) (spot : ℚ) : List DerivedRow :=
  deriveWith mkDerivedCalc (sortedView rows spot) (sortedView rows spot)

end Calculations

namespace App

/-- `process_data` of `src/app.py` (lines 469-532): same sort and spot
injection, but every category (aggregate `TOTAL` rows included) is
differenced identically and the share denominators are per-date sums. -/
def process_data (rows : List RawRow) (spot : ℚ) : List DerivedRow :=
  deriveWith mkDerivedApp (sortedView rows spot) (sortedView rows spot)

end App

/-- The raw-table merge of `src/app.py` (`save_to_database` lines 219-226
and the Submit & Process handler lines 720-728): drop every existing row
whose date occurs in the new upload, then append the new rows. -/
def merge_raw (existing new_rows : List RawRow) : List RawRow :=
  if existing.isEmpty then new_rows
  else (existing.filter (fun r => !(new_rows.any (fun n => n.date == r.date)))) ++ new_rows

/-- The raw-column projection the Submit & Process handler applies to the
persisted derived table before re-merging (`src/app.py` lines 707-719). -/
def stripRaw (d : DerivedRow) : RawRow := d.raw

/-! ### Key uniqueness and the semantic previous row -/

/-- Two rows with distinct `(date, category)` keys. -/
def keyDistinct (a b : RawRow) : Prop := a.date ≠ b.date ∨ a.clientType ≠ b.clientType

/-- The data-model invariant: at most one row per `(date, category)`. -/
def uniqueKeys (rows : List RawRow) : Prop := rows.Pairwise keyDistinct

/-- `p` is the next-older row of `r`'s category in `table`: same
category, strictly earlier date, and no same-category row of `table`
sits strictly between them (absent dates are skipped). -/
def isPrevFor (table : List RawRow) (r p : RawRow) : Prop :=
  p ∈ table ∧ p.clientType = r.clientType ∧ p.date < r.date ∧
    ∀ q ∈ table, q.clientType = r.clientType → q.date < r.date → q.date ≤ p.date

instance instDecidableKeyDistinct (a b : RawRow) : Decidable (keyDistinct a b) := by
  unfold keyDistinct
  infer_instance

instance instDecidableUniqueKeys (rows : List RawRow) : Decidable (uniqueKeys rows) := by
  unfold uniqueKeys
  infer_instance

instance instDecidableIsPrevFor (t : List RawRow) (r p : RawRow) : Decidable (isPrevFor t r p) := by
  unfold isPrevFor
  infer_instance

/-! ### Specification predicates for the claims -/

/-- All first-order per-category diff cells (including `NET DIFF`) equal
the row's value minus the next-older same-category row's value. -/
def diffFieldsEq (d : DerivedRow) (r p : RawRow) : Prop :=
  d.netCallCoC = .num (absChangeCallVal r - absChangeCallVal p) ∧
  d.netPutCoC = .num (absChangePutVal r - absChangePutVal p) ∧
  d.netDIFF = .num ((absChangeCallVal r - absChangeCallVal p) - (absChangePutVal r - absChangePutVal p)) ∧
  d.futureROC = .num (futureNetVal r - futureNetVal p) ∧
  d.futAbsChgLong = .num (r.futureIndexLong - p.futureIndexLong) ∧
  d.futAbsChgShort = .num (r.futureIndexShort - p.futureIndexShort) ∧
  d.stkFutROC = .num (stkFutNetVal r - stkFutNetVal p) ∧
  d.stkAbsChgLong = .num (r.futureStockLong - p.futureStockLong) ∧
  d.stkAbsChgShort = .num (r.futureStockShort - p.futureStockShort)

instance instDecidableDiffFieldsEq (d : DerivedRow) (r p : RawRow) :
    Decidable (diffFieldsEq d r p) := by
  unfold diffFieldsEq
  infer_instance

/-- The fourteen diff-based cells the consolidated engine masks on
aggregate `TOTAL` rows, all NaN. -/
def maskedDiffFieldsNan (d : DerivedRow) : Prop :=
  d.netCallCoC = .nan ∧ d.netPutCoC = .nan ∧ d.netDIFF = .nan ∧ d.optionROC = .nan ∧
  d.futureROC = .nan ∧ d.futAbsChgLong = .nan ∧ d.futAbsChgShort = .nan ∧
  d.futLongPct = .nan ∧ d.futShortPct = .nan ∧
  d.stkFutROC = .nan ∧ d.stkAbsChgLong = .nan ∧ d.stkAbsChgShort = .nan ∧
  d.stkLongPct = .nan ∧ d.stkShortPct = .nan

instance instDecidableMaskedNan (d : DerivedRow) : Decidable (maskedDiffFieldsNan d) := by
  unfold maskedDiffFieldsNan
  infer_instance

/-- Every period-over-period cell of a derived row is NaN: what a row
with no older same-category row carries. -/
def periodFieldsNan (d : DerivedRow) : Prop :=
  maskedDiffFieldsNan d ∧ d.niftyDiff = .nan

instance instDecidablePeriodNan (d : DerivedRow) : Decidable (periodFieldsNan d) := by
  unfold periodFieldsNan
  infer_instance

/-- The pandas value of a percentage-change cell, given the current and
the next-older value: exact ratio scaled by 100 when the older value is
nonzero, NaN for the 0/0 case, a signed infinity for division of a
nonzero change by zero. -/
def pctSpec (out : FVal) (cur prev : ℚ) : Prop :=
  (prev ≠ 0 → out = .num ((cur - prev) / prev * 100)) ∧
  (prev = 0 → cur = 0 → out = .nan) ∧
  (prev = 0 → cur ≠ 0 → out = .inf (decide (0 < cur)))

instance instDecidablePctSpec (out : FVal) (cur prev : ℚ) :
    Decidable (pctSpec out cur prev) := by
  unfold pctSpec
  infer_instance

/-- The pandas value of a cross-category share cell, given the numerator
and the per-date denominator. -/
def shareSpec (out : FVal) (v denom : ℚ) : Prop :=
  (denom ≠ 0 → out = .num (v / denom * 100)) ∧
  (denom = 0 → v = 0 → out = .nan) ∧
  (denom = 0 → v ≠ 0 → out = .inf (decide (0 < v)))

instance instDecidableShareSpec (out : FVal) (v denom : ℚ) :
    Decidable (shareSpec out v denom) := by
  unfold shareSpec
  infer_instance

/-! ### Concrete tables used by witnesses and counterexamples -/

/-- A non-aggregate category's older observation. -/
def w2a : RawRow :=
  { date := 1, clientType := "Client", futureIndexLong := 100, futureIndexShort := 40,
    futureStockLong := 30, futureStockShort := 10, optionIndexCallLong := 8,
    optionIndexPutLong := 6, optionIndexCallShort := 2, optionIndexPutShort := 4 }

/-- A non-aggregate category's newer observation. -/
def w2b : RawRow :=
  { date := 2, clientType := "Client", futureIndexLong := 150, futureIndexShort := 60,
    futureStockLong := 20, futureStockShort := 15, optionIndexCallLong := 9,
    optionIndexPutLong := 3, optionIndexCallShort := 5, optionIndexPutShort := 7 }

/-- An aggregate `TOTAL` observation, older date. -/
def c1a : RawRow := { date := 1, clientType := "TOTAL", optionIndexCallLong := 10 }

/-- An aggregate `TOTAL` observation, newer date. -/
def c1b : RawRow := { date := 2, clientType := "TOTAL", optionIndexCallLong := 30 }

/-- An aggregate `TOTAL` observation with futures positions, older date. -/
def c2a : RawRow :=
  { date := 1, clientType := "TOTAL", futureIndexLong := 100, futureIndexShort := 50 }

/-- An aggregate `TOTAL` observation with futures positions, newer date. -/
def c2b : RawRow :=
  { date := 2, clientType := "TOTAL", futureIndexLong := 150, futureIndexShort := 40 }

/-- An aggregate `TOTAL` table for the amended aggregate-row theorem. -/
def w1a : RawRow :=
  { date := 1, clientType := "TOTAL", optionIndexCallLong := 10, futureIndexLong := 100,
    futureIndexShort := 50, futureStockLong := 70, futureStockShort := 20 }

/-- The newer `TOTAL` row of the same table. -/
def w1b : RawRow :=
  { date := 2, clientType := "TOTAL", optionIndexCallLong := 30, futureIndexLong := 120,
    futureIndexShort := 40, futureStockLong := 90, futureStockShort := 30 }

/-- An existing stored row for the merge examples. -/
def m3e : RawRow := { date := 1, clientType := "FII", futureIndexLong := 100 }

/-- An uploaded row that collides with `m3e` on the date. -/
def m3n : RawRow := { date := 1, clientType := "FII", futureIndexLong := 150 }

/-- An uploaded row with a fresh date. -/
def m3d2 : RawRow := { date := 2, clientType := "FII", futureIndexLong := 150 }

/-- Existing `FII` row on day 1. -/
def m8a : RawRow := { date := 1, clientType := "FII", futureIndexLong := 100 }

/-- Existing `DII` row on day 1, whose `(date, category)` pair does not
occur in the upload. -/
def m8b : RawRow := { date := 1, clientType := "DII", futureIndexLong := 50 }

/-- Uploaded `FII` row on day 1. -/
def m8n : RawRow := { date := 1, clientType := "FII", futureIndexLong := 150 }

/-- Uploaded `DII` row on day 2. -/
def m8d2 : RawRow := { date := 2, clientType := "DII", futureIndexLong := 60 }

/-- Aggregate row present on day 2 only. -/
def c4t2 : RawRow :=
  { date := 2, clientType := "TOTAL", futureIndexLong := 200, futureIndexShort := 100 }

/-- Category `A` on day 2. -/
def c4a2 : RawRow :=
  { date := 2, clientType := "A", futureIndexLong := 80, futureIndexShort := 30 }

/-- Category `A` on day 1, a date with no aggregate row. -/
def c4a1 : RawRow :=
  { date := 1, clientType := "A", futureIndexLong := 5, futureIndexShort := 2 }

/-- Aggregate row on day 1 for the share-denominator witness. -/
def w4t1 : RawRow :=
  { date := 1, clientType := "TOTAL", futureIndexLong := 200, futureIndexShort := 100 }

/-- Category `A` on day 1 for the share-denominator witness. -/
def w4a1 : RawRow :=
  { date := 1, clientType := "A", futureIndexLong := 50, futureIndexShort := 25 }

/-- Category `B` on day 1 for the no-aggregate fallback witness. -/
def w4b1 : RawRow :=
  { date := 1, clientType := "B", futureIndexLong := 40, futureIndexShort := 20 }

/-- Older row with a zero long position (the zero denominator). -/
def c5a : RawRow := { date := 1, clientType := "FII", futureIndexLong := 0 }

/-- Newer row with a nonzero long position over a zero prior value. -/
def c5b : RawRow := { date := 2, clientType := "FII", futureIndexLong := 5 }

/-- Older row with nonzero positions for the percentage witness. -/
def w5a : RawRow :=
  { date := 1, clientType := "FII", futureIndexLong := 40, futureIndexShort := 10,
    futureStockLong := 20, futureStockShort := 5 }

/-- Newer row with nonzero positions for the percentage witness. -/
def w5b : RawRow :=
  { date := 2, clientType := "FII", futureIndexLong := 50, futureIndexShort := 12,
    futureStockLong := 24, futureStockShort := 8 }

/-- A `TOTAL` row with a zero futures short position. -/
def w6a : RawRow :=
  { date := 1, clientType := "TOTAL", futureIndexLong := 10, futureIndexShort := 0,
    futureStockLong := 10, futureStockShort := 4 }

/-- Older `TOTAL` row carrying a raw spot price. -/
def w10a : RawRow := { date := 1, clientType := "TOTAL", niftySpot := .num 50 }

/-- Newer `TOTAL` row (the injected date). -/
def w10b : RawRow := { date := 2, clientType := "TOTAL" }


/-! ### Order and sort lemmas -/

theorem rowLE_total (a b : RawRow) : rowLE a b ∨ rowLE b a := by
  rcases Nat.lt_trichotomy a.date b.date with h | h | h
  · exact Or.inr (Or.inl h)
  · rcases le_total a.clientType b.clientType with hc | hc
    · exact Or.inl (Or.inr ⟨h, hc⟩)
    · exact Or.inr (Or.inr ⟨h.symm, hc⟩)
  · exact Or.inl (Or.inl h)

theorem rowLE_trans {a b c : RawRow} (h1 : rowLE a b) (h2 : rowLE b c) : rowLE a c := by
  rcases h1 with h1 | ⟨h1d, h1c⟩
  · rcases h2 with h2 | ⟨h2d, _⟩
    · exact Or.inl (h2.trans h1)
    · exact Or.inl (h2d ▸ h1)
  · rcases h2 with h2 | ⟨h2d, h2c⟩
    · exact Or.inl (h1d ▸ h2)
    · exact Or.inr ⟨h1d.trans h2d, h1c.trans h2c⟩

theorem insertRow_perm (x : RawRow) (l : List RawRow) : (insertRow x l).Perm (x :: l) := by
  induction l with
  | nil => rfl
  | cons y ys ih =>
      by_cases h : rowLE x y
      · simp [insertRow, h]
      · simp only [insertRow, if_neg h]
        exact (ih.cons y).trans (List.Perm.swap x y ys)

theorem insertionSort_perm (l : List RawRow) : (insertionSort l).Perm l := by
  induction l with
  | nil => rfl
  | cons x xs ih => exact (insertRow_perm x (insertionSort xs)).trans (ih.cons x)

theorem mem_insertRow {a x : RawRow} {l : List RawRow} :
    a ∈ insertRow x l ↔ a = x ∨ a ∈ l := by
  rw [(insertRow_perm x l).mem_iff, List.mem_cons]

theorem insertRow_sorted (x : RawRow) {l : List RawRow} (h : l.Pairwise rowLE) :
    (insertRow x l).Pairwise rowLE := by
  induction l with
  | nil => simp [insertRow]
  | cons y ys ih =>
      rcases List.pairwise_cons.mp h with ⟨hy, hys⟩
      by_cases hxy : rowLE x y
      · simp only [insertRow, if_pos hxy]
        refine List.pairwise_cons.mpr ⟨?_, h⟩
        intro b hb
        rcases List.mem_cons.mp hb with rfl | hb
        · exact hxy
        · exact rowLE_trans hxy (hy b hb)
      · simp only [insertRow, if_neg hxy]
        refine List.pairwise_cons.mpr ⟨?_, ih hys⟩
        intro b hb
        rcases mem_insertRow.mp hb with rfl | hb
        · exact (rowLE_total b y).resolve_left hxy
        · exact hy b hb

theorem insertionSort_sorted (l : List RawRow) : (insertionSort l).Pairwise rowLE := by
  induction l with
  | nil => exact List.Pairwise.nil
  | cons x xs ih => exact insertRow_sorted x ih

theorem insertionSort_eq_self {l : List RawRow} (h : l.Pairwise rowLE) :
    insertionSort l = l := by
  induction l with
  | nil => rfl
  | cons x xs ih =>
      rcases List.pairwise_cons.mp h with ⟨hx, hxs⟩
      rw [insertionSort, ih hxs]
      cases xs with
      | nil => rfl
      | cons y ys => rw [insertRow, if_pos (hx y (List.mem_cons_self y ys))]

theorem dateMax_cons (r : RawRow) (l : List RawRow) :
    dateMax (r :: l) = max r.date (dateMax l) := rfl

theorem dateMax_perm {l₁ l₂ : List RawRow} (h : l₁.Perm l₂) : dateMax l₁ = dateMax l₂ := by
  induction h with
  | nil => rfl
  | cons x _ ih => rw [dateMax_cons, dateMax_cons, ih]
  | swap x y l =>
      rw [dateMax_cons, dateMax_cons, dateMax_cons, dateMax_cons]
      rw [← max_assoc, ← max_assoc, max_comm y.date x.date]
  | trans _ _ ih1 ih2 => exact ih1.trans ih2

theorem le_dateMax_of_mem {r : RawRow} {l : List RawRow} (h : r ∈ l) :
    r.date ≤ dateMax l := by
  induction l with
  | nil => cases h
  | cons x xs ih =>
      rw [dateMax_cons]
      rcases List.mem_cons.mp h with rfl | h
      · exact le_max_left _ _
      · exact le_trans (ih h) (le_max_right _ _)

theorem spotSet_date (spot : ℚ) (m : ℕ) (r : RawRow) : (spotSet spot m r).date = r.date := by
  unfold spotSet
  split <;> rfl

theorem spotSet_clientType (spot : ℚ) (m : ℕ) (r : RawRow) :
    (spotSet spot m r).clientType = r.clientType := by
  unfold spotSet
  split <;> rfl

/-! ### Traversal lemmas -/

theorem deriveWith_length (mk : List RawRow → RawRow → List RawRow → DerivedRow)
    (full : List RawRow) (l : List RawRow) : (deriveWith mk full l).length = l.length := by
  induction l with
  | nil => rfl
  | cons r rest ih => simp [deriveWith, ih]

theorem deriveWith_get (mk : List RawRow → RawRow → List RawRow → DerivedRow)
    (full : List RawRow) : ∀ (l : List RawRow) (i : ℕ) (h : i < l.length)
    (h2 : i < (deriveWith mk full l).length),
    (deriveWith mk full l).get ⟨i, h2⟩ = mk full (l.get ⟨i, h⟩) (l.drop (i + 1))
  | r :: rest, 0, _, _ => rfl
  | r :: rest, i + 1, h, h2 => by
      have hi : i < rest.length := Nat.lt_of_succ_lt_succ h
      have hi2 : i < (deriveWith mk full rest).length := by
        rw [deriveWith_length]
        exact hi
      simpa [deriveWith] using deriveWith_get mk full rest i hi hi2

theorem mem_deriveWith {mk : List RawRow → RawRow → List RawRow → DerivedRow}
    {full : List RawRow} {d : DerivedRow} : ∀ {l : List RawRow},
    d ∈ deriveWith mk full l ↔ ∃ pre r rest, l = pre ++ r :: rest ∧ d = mk full r rest := by
  intro l
  induction l with
  | nil =>
      simp only [deriveWith, List.not_mem_nil, false_iff]
      rintro ⟨pre, r, rest, h, -⟩
      exact (List.append_ne_nil_of_right_ne_nil pre (List.cons_ne_nil r rest)) h.symm
  | cons x xs ih =>
      simp only [deriveWith, List.mem_cons]
      constructor
      · rintro (rfl | hd)
        · exact ⟨[], x, xs, rfl, rfl⟩
        · rcases ih.mp hd with ⟨pre, r, rest, rfl, rfl⟩
          exact ⟨x :: pre, r, rest, rfl, rfl⟩
      · rintro ⟨pre, r, rest, he, rfl⟩
        cases pre with
        | nil =>
            cases he
            exact Or.inl rfl
        | cons p ps =>
            rcases List.cons.injEq .. ▸ he with ⟨rfl, he2⟩
            exact Or.inr (ih.mpr ⟨ps, r, rest, he2, rfl⟩)

theorem map_raw_deriveWith (mk : List RawRow → RawRow → List RawRow → DerivedRow)
    (hmk : ∀ full r rest, (mk full r rest).raw = r) (full : List RawRow) :
    ∀ l : List RawRow, (deriveWith mk full l).map stripRaw = l := by
  intro l
  induction l with
  | nil => rfl
  | cons r rest ih => simp [deriveWith, stripRaw, hmk, ih]

/-! ### Predecessor-search lemmas -/

theorem findPrevT_none_iff (c : String) : ∀ {l : List RawRow},
    findPrevT c l = none ↔ ∀ q ∈ l, q.clientType ≠ c := by
  intro l
  induction l with
  | nil => simp [findPrevT]
  | cons x xs ih =>
      by_cases hx : x.clientType = c
      · simp [findPrevT, hx]
      · simp [findPrevT, hx, ih]

theorem findPrevT_some {c : String} : ∀ {l : List RawRow} {p : RawRow} {t : List RawRow},
    findPrevT c l = some (p, t) →
    ∃ pre, l = pre ++ p :: t ∧ p.clientType = c ∧ ∀ q ∈ pre, q.clientType ≠ c := by
  intro l
  induction l with
  | nil => intro p t h; cases h
  | cons x xs ih =>
      intro p t h
      by_cases hx : x.clientType = c
      · rw [findPrevT, if_pos hx] at h
        cases h
        exact ⟨[], rfl, hx, by simp⟩
      · rw [findPrevT, if_neg hx] at h
        rcases ih h with ⟨pre, rfl, hp, hpre⟩
        refine ⟨x :: pre, rfl, hp, ?_⟩
        intro q hq
        rcases List.mem_cons.mp hq with rfl | hq
        · exact hx
        · exact hpre q hq

theorem keyDistinct_symm : ∀ {a b : RawRow}, keyDistinct a b → keyDistinct b a := by
  rintro a b (h | h)
  · exact Or.inl (Ne.symm h)
  · exact Or.inr (Ne.symm h)

theorem rowLE_spotSet (spot : ℚ) (m : ℕ) (a b : RawRow) :
    rowLE (spotSet spot m a) (spotSet spot m b) ↔ rowLE a b := by
  unfold rowLE
  rw [spotSet_date, spotSet_date, spotSet_clientType, spotSet_clientType]

theorem keyDistinct_spotSet (spot : ℚ) (m : ℕ) (a b : RawRow) :
    keyDistinct (spotSet spot m a) (spotSet spot m b) ↔ keyDistinct a b := by
  unfold keyDistinct
  rw [spotSet_date, spotSet_date, spotSet_clientType, spotSet_clientType]

theorem sortedView_pairwise (rows : List RawRow) (spot : ℚ) :
    (sortedView rows spot).Pairwise rowLE := by
  unfold sortedView injectSpot
  rw [List.pairwise_map]
  exact (insertionSort_sorted rows).imp (fun h => (rowLE_spotSet _ _ _ _).mpr h)

theorem sortedView_uniqueKeys {rows : List RawRow} (spot : ℚ) (h : uniqueKeys rows) :
    uniqueKeys (sortedView rows spot) := by
  unfold sortedView injectSpot uniqueKeys
  rw [List.pairwise_map]
  have hsort : uniqueKeys (insertionSort rows) :=
    ((insertionSort_perm rows).pairwise_iff (fun h => keyDistinct_symm h)).mpr h
  exact hsort.imp (fun h => (keyDistinct_spotSet _ _ _ _).mpr h)

theorem sortedView_perm (rows : List RawRow) (spot : ℚ) :
    (sortedView rows spot).Perm (rows.map (spotSet spot (dateMax rows))) := by
  unfold sortedView injectSpot
  rw [dateMax_perm (insertionSort_perm rows)]
  exact (insertionSort_perm rows).map (spotSet spot (dateMax rows))

/-- On a table sorted newest-first with unique `(date, category)` keys,
the row `findPrevT` returns below position `pre.length` is exactly the
semantic next-older same-category row of the whole table. -/
theorem findPrevT_isPrevFor {s pre rest : List RawRow} {r : RawRow}
    (hs : s = pre ++ r :: rest) (hsort : s.Pairwise rowLE) (huniq : uniqueKeys s)
    {p : RawRow} {t : List RawRow}
    (hfind : findPrevT r.clientType rest = some (p, t)) : isPrevFor s r p := by
  subst hs
  rcases findPrevT_some hfind with ⟨pre2, hrest, hpc, hpre2⟩
  rcases List.pairwise_append.mp hsort with ⟨-, hmid, hcross⟩
  rcases List.pairwise_cons.mp hmid with ⟨hr_rest, hrest_sort⟩
  rcases List.pairwise_append.mp huniq with ⟨-, humid, -⟩
  rcases List.pairwise_cons.mp humid with ⟨hu_r, -⟩
  have hpmem : p ∈ rest := by
    rw [hrest]
    exact List.mem_append_right pre2 (List.mem_cons_self p t)
  have hspmem : p ∈ pre ++ r :: rest :=
    List.mem_append_right pre (List.mem_cons_of_mem r hpmem)
  have hdate : p.date < r.date := by
    rcases hr_rest p hpmem with h | ⟨hd, -⟩
    · exact h
    · rcases hu_r p hpmem with hne | hne
      · exact absurd hd hne
      · exact absurd hpc.symm hne
  refine ⟨hspmem, hpc, hdate, ?_⟩
  intro q hq hqc hqd
  rcases List.mem_append.mp hq with hq | hq
  · rcases hcross q hq r (List.mem_cons_self r rest) with h | ⟨hd, -⟩
    · exact absurd hqd (Nat.lt_asymm h)
    · exact absurd hqd (hd ▸ Nat.lt_irrefl q.date)
  · rcases List.mem_cons.mp hq with rfl | hq
    · exact absurd hqd (Nat.lt_irrefl _)
    · rw [hrest] at hq
      rcases List.mem_append.mp hq with hq | hq
      · exact absurd hqc (hpre2 q hq)
      · rcases List.mem_cons.mp hq with rfl | hq
        · exact Nat.le_refl _
        · rw [hrest] at hrest_sort
          rcases List.pairwise_append.mp hrest_sort with ⟨-, hpt, -⟩
          rcases List.pairwise_cons.mp hpt with ⟨hp_t, -⟩
          rcases hp_t q hq with h | ⟨hd, -⟩
          · exact Nat.le_of_lt h
          · exact Nat.le_of_eq hd.symm

/-- On a sorted table, when `findPrevT` finds nothing below the current
row there is no older same-category row anywhere in the table. -/
theorem findPrevT_none_noPrev {s pre rest : List RawRow} {r : RawRow}
    (hs : s = pre ++ r :: rest) (hsort : s.Pairwise rowLE)
    (hfind : findPrevT r.clientType rest = none) : ∀ p, ¬ isPrevFor s r p := by
  subst hs
  rintro p ⟨hpmem, hpc, hpd, -⟩
  rcases List.pairwise_append.mp hsort with ⟨-, -, hcross⟩
  rcases List.mem_append.mp hpmem with hp | hp
  · rcases hcross p hp r (List.mem_cons_self r rest) with h | ⟨hd, -⟩
    · exact Nat.lt_asymm h hpd
    · exact Nat.lt_irrefl _ (hd ▸ hpd)
  · rcases List.mem_cons.mp hp with rfl | hp
    · exact Nat.lt_irrefl _ hpd
    · exact (findPrevT_none_iff _ |>.mp hfind) p hp hpc

/-- Under unique `(date, category)` keys the next-older row is unique. -/
theorem isPrevFor_unique {s : List RawRow} {r p p' : RawRow} (huniq : uniqueKeys s)
    (h1 : isPrevFor s r p) (h2 : isPrevFor s r p') : p = p' := by
  rcases h1 with ⟨hm1, hc1, hd1, hmax1⟩
  rcases h2 with ⟨hm2, hc2, hd2, hmax2⟩
  by_contra hne
  have hkd : keyDistinct p p' :=
    List.Pairwise.forall (fun a b h => keyDistinct_symm h) huniq hm1 hm2 hne
  have hdeq : p.date = p'.date :=
    Nat.le_antisymm (hmax2 p hm1 hc1 hd1) (hmax1 p' hm2 hc2 hd2)
  rcases hkd with h | h
  · exact h hdeq
  · exact h (hc1.trans hc2.symm)

/-! ### FVal reduction lemmas -/

theorem FVal.sub_num (a b : ℚ) : FVal.sub (.num a) (.num b) = .num (a - b) := rfl

theorem FVal.sub_nan_left (x : FVal) : FVal.sub .nan x = .nan := by cases x <;> rfl

theorem FVal.sub_nan_right (x : FVal) : FVal.sub x .nan = .nan := by cases x <;> rfl

theorem FVal.mul_nan_left (x : FVal) : FVal.mul .nan x = .nan := by cases x <;> rfl

theorem FVal.div_nan_left (x : FVal) : FVal.div .nan x = .nan := by cases x <;> rfl

theorem FVal.div_nan_right (x : FVal) : FVal.div x .nan = .nan := by cases x <;> rfl

theorem FVal.div_nums (a b : ℚ) :
    FVal.div (.num a) (.num b) =
      if b = 0 then (if a = 0 then .nan else .inf (decide (0 < a))) else .num (a / b) := rfl

theorem FVal.mul_nums (a b : ℚ) : FVal.mul (.num a) (.num b) = .num (a * b) := rfl

theorem FVal.mul_inf_num (s : Bool) (q : ℚ) :
    FVal.mul (.inf s) (.num q) = if q = 0 then .nan else .inf (s == decide (0 < q)) := rfl

theorem FVal.mul_inf_hundred (s : Bool) : FVal.mul (.inf s) (.num 100) = .inf s := by
  rw [FVal.mul_inf_num, if_neg (show (100:ℚ) ≠ 0 by norm_num),
    decide_eq_true (show (0:ℚ) < 100 by norm_num)]
  cases s <;> rfl

/-! ### Cell-evaluation lemmas -/

theorem qDiff_prev {r p : RawRow} {t rest : List RawRow} (f : RawRow → ℚ)
    (h : findPrevT r.clientType rest = some (p, t)) : qDiff f r rest = .num (f r - f p) := by
  unfold qDiff
  rw [h]

theorem qDiff_none {r : RawRow} {rest : List RawRow} (f : RawRow → ℚ)
    (h : findPrevT r.clientType rest = none) : qDiff f r rest = .nan := by
  unfold qDiff
  rw [h]

theorem prevShift_prev {r p : RawRow} {t rest : List RawRow} (f : RawRow → ℚ)
    (h : findPrevT r.clientType rest = some (p, t)) : prevShift f r rest = .num (f p) := by
  unfold prevShift
  rw [h]

theorem prevShift_none {r : RawRow} {rest : List RawRow} (f : RawRow → ℚ)
    (h : findPrevT r.clientType rest = none) : prevShift f r rest = .nan := by
  unfold prevShift
  rw [h]

theorem netDiffAt_prev {r p : RawRow} {t rest : List RawRow}
    (h : findPrevT r.clientType rest = some (p, t)) :
    netDiffAt r rest =
      .num ((absChangeCallVal r - absChangeCallVal p) - (absChangePutVal r - absChangePutVal p)) := by
  unfold netDiffAt
  rw [qDiff_prev _ h, qDiff_prev _ h]
  rfl

theorem netDiffAt_none {r : RawRow} {rest : List RawRow}
    (h : findPrevT r.clientType rest = none) : netDiffAt r rest = .nan := by
  unfold netDiffAt
  rw [qDiff_none _ h, FVal.sub_nan_left]

theorem optionROCAt_none {r : RawRow} {rest : List RawRow}
    (h : findPrevT r.clientType rest = none) : optionROCAt r rest = .nan := by
  unfold optionROCAt
  rw [h]

theorem pctAt_none {r : RawRow} {rest : List RawRow} (f : RawRow → ℚ)
    (h : findPrevT r.clientType rest = none) : pctAt f r rest = .nan := by
  unfold pctAt
  rw [qDiff_none _ h, prevShift_none _ h, FVal.div_nan_left, FVal.mul_nan_left]

theorem spotDiffAt_none {r : RawRow} {rest : List RawRow}
    (h : findPrevT r.clientType rest = none) : spotDiffAt r rest = .nan := by
  unfold spotDiffAt
  rw [h]

theorem spotDiffAt_prev {r p : RawRow} {t rest : List RawRow}
    (h : findPrevT r.clientType rest = some (p, t)) :
    spotDiffAt r rest = FVal.sub r.niftySpot p.niftySpot := by
  unfold spotDiffAt
  rw [h]

theorem beq_true_eq (b : Bool) : (b == true) = b := by
  cases b <;> rfl

theorem pctAt_prev_spec {r p : RawRow} {t rest : List RawRow} (f : RawRow → ℚ)
    (h : findPrevT r.clientType rest = some (p, t)) :
    pctSpec (pctAt f r rest) (f r) (f p) := by
  unfold pctAt
  rw [qDiff_prev _ h, prevShift_prev _ h]
  refine ⟨?_, ?_, ?_⟩
  · intro hne
    rw [FVal.div_nums, if_neg hne, FVal.mul_nums]
  · intro h0 hc
    rw [h0, hc, FVal.div_nums, if_pos rfl, if_pos (by rw [sub_zero]), FVal.mul_nan_left]
  · intro h0 hc
    have hd : f r - f p ≠ 0 := by
      rw [h0, sub_zero]
      exact hc
    rw [FVal.div_nums, if_pos h0, if_neg hd, FVal.mul_inf_hundred, h0, sub_zero]

theorem sharePct_nan (v : ℚ) : sharePct v .nan = .nan := rfl

theorem sharePct_spec (v denom : ℚ) : shareSpec (sharePct v (.num denom)) v denom := by
  unfold sharePct
  refine ⟨?_, ?_, ?_⟩
  · intro hne
    rw [FVal.div_nums, if_neg hne, FVal.mul_nums]
  · intro h0 hv
    rw [h0, hv, FVal.div_nums, if_pos rfl, if_pos rfl, FVal.mul_nan_left]
  · intro h0 hv
    rw [h0, FVal.div_nums, if_pos rfl, if_neg hv, FVal.mul_inf_hundred]

/-! ### Output-position lemmas -/

theorem processCalc_get (rows : List RawRow) (spot : ℚ) (i : ℕ)
    (hi : i < (sortedView rows spot).length)
    (hd : i < (Calculations.process_data rows spot).length) :
    (Calculations.process_data rows spot).get ⟨i, hd⟩ =
      mkDerivedCalc (sortedView rows spot) ((sortedView rows spot).get ⟨i, hi⟩)
        ((sortedView rows spot).drop (i + 1)) := by
  unfold Calculations.process_data at hd ⊢
  exact deriveWith_get _ _ _ i hi hd

theorem processApp_get (rows : List RawRow) (spot : ℚ) (i : ℕ)
    (hi : i < (sortedView rows spot).length)
    (hd : i < (App.process_data rows spot).length) :
    (App.process_data rows spot).get ⟨i, hd⟩ =
      mkDerivedApp (sortedView rows spot) ((sortedView rows spot).get ⟨i, hi⟩)
        ((sortedView rows spot).drop (i + 1)) := by
  unfold App.process_data at hd ⊢
  exact deriveWith_get _ _ _ i hi hd

theorem drop_eq_get_cons : ∀ {l : List RawRow} {i : ℕ} (h : i < l.length),
    l.drop i = l.get ⟨i, h⟩ :: l.drop (i + 1)
  | x :: xs, 0, _ => rfl
  | x :: xs, i + 1, h => by
      have := @drop_eq_get_cons xs i (Nat.lt_of_succ_lt_succ h)
      simp only [List.drop]
      exact this

theorem split_at_get {l : List RawRow} {i : ℕ} (h : i < l.length) :
    l = l.take i ++ l.get ⟨i, h⟩ :: l.drop (i + 1) := by
  conv_lhs => rw [← List.take_append_drop i l]
  rw [drop_eq_get_cons h]

/-! ### Idempotence chain -/

theorem dateMax_map_spotSet (spot : ℚ) (m : ℕ) (l : List RawRow) :
    dateMax (l.map (spotSet spot m)) = dateMax l := by
  induction l with
  | nil => rfl
  | cons r rest ih => rw [List.map_cons, dateMax_cons, dateMax_cons, spotSet_date, ih]

theorem spotSet_idem (spot : ℚ) (m : ℕ) (r : RawRow) :
    spotSet spot m (spotSet spot m r) = spotSet spot m r := by
  unfold spotSet
  by_cases h : r.date = m
  · simp [h]
  · simp [h]

theorem injectSpot_sortedView (rows : List RawRow) (spot : ℚ) :
    injectSpot spot (sortedView rows spot) = sortedView rows spot := by
  conv_lhs => unfold injectSpot
  conv_lhs => rw [show sortedView rows spot = (insertionSort rows).map (spotSet spot (dateMax (insertionSort rows))) from rfl]
  rw [dateMax_map_spotSet, List.map_map]
  have hfun : spotSet spot (dateMax (insertionSort rows)) ∘ spotSet spot (dateMax (insertionSort rows)) =
      spotSet spot (dateMax (insertionSort rows)) :=
    funext (spotSet_idem spot (dateMax (insertionSort rows)))
  rw [hfun]
  rfl

theorem sortedView_idem (rows : List RawRow) (spot : ℚ) :
    sortedView (sortedView rows spot) spot = sortedView rows spot := by
  rw [show sortedView (sortedView rows spot) spot =
      injectSpot spot (insertionSort (sortedView rows spot)) from rfl]
  rw [insertionSort_eq_self (sortedView_pairwise rows spot), injectSpot_sortedView]

/-! ### Row-level semantics of the two engines -/

theorem findPrevT_some_of_isPrevFor {s pre rest : List RawRow} {r p : RawRow}
    (hs : s = pre ++ r :: rest) (hsort : s.Pairwise rowLE) (huniq : uniqueKeys s)
    (hp : isPrevFor s r p) :
    ∃ pre2 t, findPrevT r.clientType rest = some (p, t) ∧ s = (pre ++ r :: pre2) ++ p :: t := by
  cases hfind : findPrevT r.clientType rest with
  | none => exact absurd hp (findPrevT_none_noPrev hs hsort hfind p)
  | some pt =>
      obtain ⟨p0, t⟩ := pt
      have h0 : isPrevFor s r p0 := findPrevT_isPrevFor hs hsort huniq hfind
      have hpp : p0 = p := isPrevFor_unique huniq h0 hp
      subst hpp
      rcases findPrevT_some hfind with ⟨pre2, hrest, -, -⟩
      refine ⟨pre2, t, rfl, ?_⟩
      rw [hs, hrest]
      simp

theorem findPrevT_none_of_noPrev {s pre rest : List RawRow} {r : RawRow}
    (hs : s = pre ++ r :: rest) (hsort : s.Pairwise rowLE) (huniq : uniqueKeys s)
    (hnp : ∀ p, ¬ isPrevFor s r p) : findPrevT r.clientType rest = none := by
  cases hfind : findPrevT r.clientType rest with
  | none => rfl
  | some pt =>
      obtain ⟨p0, t⟩ := pt
      exact absurd (findPrevT_isPrevFor hs hsort huniq hfind) (hnp p0)

theorem optionROCAt_semantics {s pre rest : List RawRow} {r p : RawRow}
    (hs : s = pre ++ r :: rest) (hsort : s.Pairwise rowLE) (huniq : uniqueKeys s)
    (hp : isPrevFor s r p) :
    ((∀ p2, ¬ isPrevFor s p p2) → optionROCAt r rest = .nan) ∧
    (∀ p2, isPrevFor s p p2 → optionROCAt r rest =
      .num (((absChangeCallVal r - absChangeCallVal p) - (absChangePutVal r - absChangePutVal p)) -
        ((absChangeCallVal p - absChangeCallVal p2) - (absChangePutVal p - absChangePutVal p2)))) := by
  obtain ⟨pre2, t, hfind, hs2⟩ := findPrevT_some_of_isPrevFor hs hsort huniq hp
  constructor
  · intro hnp2
    unfold optionROCAt
    rw [hfind]
    show (netDiffAt r rest).sub (netDiffAt p t) = _
    rw [netDiffAt_none (findPrevT_none_of_noPrev hs2 hsort huniq hnp2), FVal.sub_nan_right]
  · intro p2 hp2
    obtain ⟨pre3, t2, hfind2, -⟩ := findPrevT_some_of_isPrevFor hs2 hsort huniq hp2
    unfold optionROCAt
    rw [hfind]
    show (netDiffAt r rest).sub (netDiffAt p t) = _
    rw [netDiffAt_prev hfind, netDiffAt_prev hfind2, FVal.sub_num]

theorem calc_fields_of_total {s rest : List RawRow} {r : RawRow} (ht : r.isTotal = true) :
    maskedDiffFieldsNan (mkDerivedCalc s r rest) := by
  unfold maskedDiffFieldsNan mkDerivedCalc
  simp only [ht]
  exact ⟨rfl, rfl, rfl, rfl, rfl, rfl, rfl, rfl, rfl, rfl, rfl, rfl, rfl, rfl⟩

theorem calc_fields_of_prev {s pre rest : List RawRow} {r p : RawRow}
    (hs : s = pre ++ r :: rest) (hsort : s.Pairwise rowLE) (huniq : uniqueKeys s)
    (hnt : r.isTotal = false) (hp : isPrevFor s r p) :
    diffFieldsEq (mkDerivedCalc s r rest) r p ∧
    pctSpec (mkDerivedCalc s r rest).futLongPct r.futureIndexLong p.futureIndexLong ∧
    pctSpec (mkDerivedCalc s r rest).futShortPct r.futureIndexShort p.futureIndexShort ∧
    pctSpec (mkDerivedCalc s r rest).stkLongPct r.futureStockLong p.futureStockLong ∧
    pctSpec (mkDerivedCalc s r rest).stkShortPct r.futureStockShort p.futureStockShort ∧
    (mkDerivedCalc s r rest).niftyDiff = FVal.sub r.niftySpot p.niftySpot ∧
    ((∀ p2, ¬ isPrevFor s p p2) → (mkDerivedCalc s r rest).optionROC = .nan) ∧
    (∀ p2, isPrevFor s p p2 → (mkDerivedCalc s r rest).optionROC =
      .num (((absChangeCallVal r - absChangeCallVal p) - (absChangePutVal r - absChangePutVal p)) -
        ((absChangeCallVal p - absChangeCallVal p2) - (absChangePutVal p - absChangePutVal p2)))) := by
  obtain ⟨pre2, t, hfind, -⟩ := findPrevT_some_of_isPrevFor hs hsort huniq hp
  have hroc := optionROCAt_semantics hs hsort huniq hp
  unfold diffFieldsEq mkDerivedCalc
  simp only [hnt, Bool.false_eq_true, if_false]
  refine ⟨⟨?_, ?_, ?_, ?_, ?_, ?_, ?_, ?_, ?_⟩, ?_, ?_, ?_, ?_, ?_, ?_, ?_⟩
  · exact qDiff_prev _ hfind
  · exact qDiff_prev _ hfind
  · exact netDiffAt_prev hfind
  · exact qDiff_prev _ hfind
  · exact qDiff_prev _ hfind
  · exact qDiff_prev _ hfind
  · exact qDiff_prev _ hfind
  · exact qDiff_prev _ hfind
  · exact qDiff_prev _ hfind
  · exact pctAt_prev_spec _ hfind
  · exact pctAt_prev_spec _ hfind
  · exact pctAt_prev_spec _ hfind
  · exact pctAt_prev_spec _ hfind
  · exact spotDiffAt_prev hfind
  · exact hroc.1
  · exact hroc.2

theorem calc_fields_of_noPrev {s pre rest : List RawRow} {r : RawRow}
    (hs : s = pre ++ r :: rest) (hsort : s.Pairwise rowLE) (huniq : uniqueKeys s)
    (hnt : r.isTotal = false) (hnp : ∀ p, ¬ isPrevFor s r p) :
    periodFieldsNan (mkDerivedCalc s r rest) := by
  have hfind := findPrevT_none_of_noPrev hs hsort huniq hnp
  unfold periodFieldsNan maskedDiffFieldsNan mkDerivedCalc
  simp only [hnt, Bool.false_eq_true, if_false]
  exact ⟨⟨qDiff_none _ hfind, qDiff_none _ hfind, netDiffAt_none hfind, optionROCAt_none hfind,
    qDiff_none _ hfind, qDiff_none _ hfind, qDiff_none _ hfind,
    pctAt_none _ hfind, pctAt_none _ hfind,
    qDiff_none _ hfind, qDiff_none _ hfind, qDiff_none _ hfind,
    pctAt_none _ hfind, pctAt_none _ hfind⟩, spotDiffAt_none hfind⟩

theorem app_fields_of_prev {s pre rest : List RawRow} {r p : RawRow}
    (hs : s = pre ++ r :: rest) (hsort : s.Pairwise rowLE) (huniq : uniqueKeys s)
    (hp : isPrevFor s r p) :
    diffFieldsEq (mkDerivedApp s r rest) r p ∧
    pctSpec (mkDerivedApp s r rest).futLongPct r.futureIndexLong p.futureIndexLong ∧
    pctSpec (mkDerivedApp s r rest).futShortPct r.futureIndexShort p.futureIndexShort ∧
    pctSpec (mkDerivedApp s r rest).stkLongPct r.futureStockLong p.futureStockLong ∧
    pctSpec (mkDerivedApp s r rest).stkShortPct r.futureStockShort p.futureStockShort ∧
    (mkDerivedApp s r rest).niftyDiff = FVal.sub r.niftySpot p.niftySpot ∧
    ((∀ p2, ¬ isPrevFor s p p2) → (mkDerivedApp s r rest).optionROC = .nan) ∧
    (∀ p2, isPrevFor s p p2 → (mkDerivedApp s r rest).optionROC =
      .num (((absChangeCallVal r - absChangeCallVal p) - (absChangePutVal r - absChangePutVal p)) -
        ((absChangeCallVal p - absChangeCallVal p2) - (absChangePutVal p - absChangePutVal p2)))) := by
  obtain ⟨pre2, t, hfind, -⟩ := findPrevT_some_of_isPrevFor hs hsort huniq hp
  have hroc := optionROCAt_semantics hs hsort huniq hp
  unfold diffFieldsEq mkDerivedApp
  refine ⟨⟨?_, ?_, ?_, ?_, ?_, ?_, ?_, ?_, ?_⟩, ?_, ?_, ?_, ?_, ?_, ?_, ?_⟩
  · exact qDiff_prev _ hfind
  · exact qDiff_prev _ hfind
  · exact netDiffAt_prev hfind
  · exact qDiff_prev _ hfind
  · exact qDiff_prev _ hfind
  · exact qDiff_prev _ hfind
  · exact qDiff_prev _ hfind
  · exact qDiff_prev _ hfind
  · exact qDiff_prev _ hfind
  · exact pctAt_prev_spec _ hfind
  · exact pctAt_prev_spec _ hfind
  · exact pctAt_prev_spec _ hfind
  · exact pctAt_prev_spec _ hfind
  · exact spotDiffAt_prev hfind
  · exact hroc.1
  · exact hroc.2

theorem calc_niftyDiff_of_prev {s pre rest : List RawRow} {r p : RawRow}
    (hs : s = pre ++ r :: rest) (hsort : s.Pairwise rowLE) (huniq : uniqueKeys s)
    (hp : isPrevFor s r p) :
    (mkDerivedCalc s r rest).niftyDiff = FVal.sub r.niftySpot p.niftySpot := by
  obtain ⟨pre2, t, hfind, -⟩ := findPrevT_some_of_isPrevFor hs hsort huniq hp
  exact spotDiffAt_prev hfind

theorem calc_niftyDiff_of_noPrev {s pre rest : List RawRow} {r : RawRow}
    (hs : s = pre ++ r :: rest) (hsort : s.Pairwise rowLE) (huniq : uniqueKeys s)
    (hnp : ∀ p, ¬ isPrevFor s r p) :
    (mkDerivedCalc s r rest).niftyDiff = .nan :=
  spotDiffAt_none (findPrevT_none_of_noPrev hs hsort huniq hnp)

/-! ### Share-denominator characterization -/

theorem spotSet_isTotal (spot : ℚ) (m : ℕ) (r : RawRow) :
    (spotSet spot m r).isTotal = r.isTotal := by
  unfold RawRow.isTotal
  rw [spotSet_clientType]

theorem spotSet_futureIndexLong (spot : ℚ) (m : ℕ) (r : RawRow) :
    (spotSet spot m r).futureIndexLong = r.futureIndexLong := by
  unfold spotSet
  split <;> rfl

theorem spotSet_futureIndexShort (spot : ℚ) (m : ℕ) (r : RawRow) :
    (spotSet spot m r).futureIndexShort = r.futureIndexShort := by
  unfold spotSet
  split <;> rfl

theorem mem_sortedView {rows : List RawRow} {spot : ℚ} {y : RawRow} :
    y ∈ sortedView rows spot ↔ ∃ x ∈ rows, spotSet spot (dateMax rows) x = y := by
  rw [(sortedView_perm rows spot).mem_iff, List.mem_map]

theorem sortedView_filter_perm (rows : List RawRow) (spot : ℚ) (p : RawRow → Bool)
    (hp : ∀ r, p (spotSet spot (dateMax rows) r) = p r) :
    ((sortedView rows spot).filter p).Perm
      ((rows.filter p).map (spotSet spot (dateMax rows))) := by
  have h := (sortedView_perm rows spot).filter p
  rw [List.filter_map] at h
  have hc : (p ∘ spotSet spot (dateMax rows)) = p := funext hp
  rw [hc] at h
  exact h

theorem find?_eq_some_of_unique {l : List RawRow} {pred : RawRow → Bool} {a : RawRow}
    (ha : a ∈ l) (hpa : pred a = true) (huni : ∀ y ∈ l, pred y = true → y = a) :
    l.find? pred = some a := by
  induction l with
  | nil => cases ha
  | cons x xs ih =>
      by_cases hx : pred x = true
      · have hxa : x = a := huni x (List.mem_cons_self x xs) hx
        subst hxa
        exact List.find?_cons_of_pos xs hx
      · rw [List.find?_cons_of_neg xs (by simp [hx])]
        rcases List.mem_cons.mp ha with rfl | ha2
        · exact absurd hpa hx
        · exact ih ha2 (fun y hy hpy => huni y (List.mem_cons_of_mem x hy) hpy)

theorem isEmpty_false_of_mem {l : List RawRow} {a : RawRow} (h : a ∈ l) :
    l.isEmpty = false := by
  cases l with
  | nil => cases h
  | cons x xs => rfl

theorem denom_total_some (rows : List RawRow) (spot : ℚ) {t : RawRow} {d : ℕ}
    (ht : t ∈ rows) (htt : t.isTotal = true) (htd : t.date = d)
    (huni : ∀ t2 ∈ rows, t2.isTotal = true → t2.date = d → t2 = t) :
    totalLongDenom (sortedView rows spot) d = .num t.futureIndexLong ∧
    totalShortDenom (sortedView rows spot) d = .num t.futureIndexShort := by
  have hgt : spotSet spot (dateMax rows) t ∈
      (sortedView rows spot).filter (fun x => x.isTotal) := by
    rw [List.mem_filter]
    exact ⟨mem_sortedView.mpr ⟨t, ht, rfl⟩, by rw [spotSet_isTotal]; exact htt⟩
  have hne : ¬ (((sortedView rows spot).filter (fun x => x.isTotal)).isEmpty = true) := by
    rw [isEmpty_false_of_mem hgt]
    exact Bool.false_ne_true
  have hfind : ((sortedView rows spot).filter (fun x => x.isTotal)).find?
      (fun x => x.date == d) = some (spotSet spot (dateMax rows) t) := by
    refine find?_eq_some_of_unique hgt ?_ ?_
    · rw [beq_iff_eq, spotSet_date]
      exact htd
    · intro y hy hpy
      rcases List.mem_filter.mp hy with ⟨hys, hyt⟩
      rcases mem_sortedView.mp hys with ⟨x, hx, rfl⟩
      rw [beq_iff_eq, spotSet_date] at hpy
      rw [spotSet_isTotal] at hyt
      rw [huni x hx hyt hpy]
  constructor
  · simp only [totalLongDenom]
    rw [if_neg hne, hfind]
    show FVal.num (spotSet spot (dateMax rows) t).futureIndexLong = _
    rw [spotSet_futureIndexLong]
  · simp only [totalShortDenom]
    rw [if_neg hne, hfind]
    show FVal.num (spotSet spot (dateMax rows) t).futureIndexShort = _
    rw [spotSet_futureIndexShort]

theorem denom_total_absent (rows : List RawRow) (spot : ℚ) {d : ℕ}
    (hex : ∃ t ∈ rows, t.isTotal = true)
    (hnone : ∀ t ∈ rows, t.isTotal = true → t.date ≠ d) :
    totalLongDenom (sortedView rows spot) d = .nan ∧
    totalShortDenom (sortedView rows spot) d = .nan := by
  obtain ⟨t, ht, htt⟩ := hex
  have hgt : spotSet spot (dateMax rows) t ∈
      (sortedView rows spot).filter (fun x => x.isTotal) := by
    rw [List.mem_filter]
    exact ⟨mem_sortedView.mpr ⟨t, ht, rfl⟩, by rw [spotSet_isTotal]; exact htt⟩
  have hne : ¬ (((sortedView rows spot).filter (fun x => x.isTotal)).isEmpty = true) := by
    rw [isEmpty_false_of_mem hgt]
    exact Bool.false_ne_true
  have hfind : ((sortedView rows spot).filter (fun x => x.isTotal)).find?
      (fun x => x.date == d) = none := by
    rw [List.find?_eq_none]
    intro y hy
    rcases List.mem_filter.mp hy with ⟨hys, hyt⟩
    rcases mem_sortedView.mp hys with ⟨x, hx, rfl⟩
    rw [spotSet_isTotal] at hyt
    simp only [spotSet_date, beq_iff_eq]
    exact hnone x hx hyt
  constructor
  · simp only [totalLongDenom]
    rw [if_neg hne, hfind]
  · simp only [totalShortDenom]
    rw [if_neg hne, hfind]

theorem denom_no_total (rows : List RawRow) (spot : ℚ) {d : ℕ}
    (hnt : ∀ t ∈ rows, t.isTotal = false) :
    totalLongDenom (sortedView rows spot) d =
      .num (((rows.filter (fun x => !x.isTotal && x.date == d)).map
        (fun x => x.futureIndexLong)).sum) ∧
    totalShortDenom (sortedView rows spot) d =
      .num (((rows.filter (fun x => !x.isTotal && x.date == d)).map
        (fun x => x.futureIndexShort)).sum) := by
  have hnil : (sortedView rows spot).filter (fun x => x.isTotal) = [] := by
    rw [List.filter_eq_nil_iff]
    intro a ha
    rcases mem_sortedView.mp ha with ⟨x, hx, rfl⟩
    rw [spotSet_isTotal]
    simp [hnt x hx]
  have hpres : ∀ r, ((fun x => !x.isTotal && x.date == d) (spotSet spot (dateMax rows) r)) =
      ((fun x => !x.isTotal && x.date == d) r) := by
    intro r
    simp only [spotSet_isTotal, spotSet_date]
  have hpermL := (sortedView_filter_perm rows spot (fun x => !x.isTotal && x.date == d)
    hpres).map (fun x => x.futureIndexLong)
  rw [List.map_map] at hpermL
  have hcL : ((fun x => x.futureIndexLong) ∘ spotSet spot (dateMax rows)) =
      (fun x => x.futureIndexLong) := funext (spotSet_futureIndexLong spot (dateMax rows))
  rw [hcL] at hpermL
  have hpermS := (sortedView_filter_perm rows spot (fun x => !x.isTotal && x.date == d)
    hpres).map (fun x => x.futureIndexShort)
  rw [List.map_map] at hpermS
  have hcS : ((fun x => x.futureIndexShort) ∘ spotSet spot (dateMax rows)) =
      (fun x => x.futureIndexShort) := funext (spotSet_futureIndexShort spot (dateMax rows))
  rw [hcS] at hpermS
  constructor
  · simp only [totalLongDenom]
    rw [hnil]
    show FVal.num (((sortedView rows spot).filter (fun x => !x.isTotal && x.date == d)).map
      (fun x => x.futureIndexLong)).sum = _
    rw [hpermL.sum_eq]
  · simp only [totalShortDenom]
    rw [hnil]
    show FVal.num (((sortedView rows spot).filter (fun x => !x.isTotal && x.date == d)).map
      (fun x => x.futureIndexShort)).sum = _
    rw [hpermS.sum_eq]

/-! ### Claim theorems -/

/-- C6: in `process_data` of `src/utils/calculations.py`, for every row
of every input table (aggregate `TOTAL` rows included) `Fut L/S Ratio`
equals `Future Index Long / Future Index Short` when the short side is
nonzero and is exactly 0 (not NaN) when the short side is zero, and
`Stk L/S Ratio` behaves the same over the stock-future fields; the
computation is a total function, so no exception is raised. -/
theorem C6_ls_ratio_zero_fallback (rows : List RawRow) (spot : ℚ) (d : DerivedRow)
    (hd : d ∈ Calculations.process_data rows spot) :
    d.futLSRatio = (if d.raw.futureIndexShort = 0 then 0
      else d.raw.futureIndexLong / d.raw.futureIndexShort) ∧
    d.stkLSRatio = (if d.raw.futureStockShort = 0 then 0
      else d.raw.futureStockLong / d.raw.futureStockShort) := by
  unfold Calculations.process_data at hd
  rcases mem_deriveWith.mp hd with ⟨pre, r, rest, -, rfl⟩
  constructor
  · show lsRatio r.futureIndexLong r.futureIndexShort =
      (if r.futureIndexShort = 0 then 0 else r.futureIndexLong / r.futureIndexShort)
    unfold lsRatio
    by_cases h : r.futureIndexShort = 0
    · rw [if_neg (not_not.mpr h), if_pos h]
    · rw [if_pos h, if_neg h]
  · show lsRatio r.futureStockLong r.futureStockShort =
      (if r.futureStockShort = 0 then 0 else r.futureStockLong / r.futureStockShort)
    unfold lsRatio
    by_cases h : r.futureStockShort = 0
    · rw [if_neg (not_not.mpr h), if_pos h]
    · rw [if_pos h, if_neg h]

/-- C6 witness: a concrete `TOTAL` row with a zero futures short side has
ratio 0 and a nonzero stock short side has the exact quotient. -/
theorem C6_witness :
    ((Calculations.process_data [w6a] 100).get ⟨0, by with_unfolding_all decide⟩).futLSRatio =
      (if ((Calculations.process_data [w6a] 100).get
          ⟨0, by with_unfolding_all decide⟩).raw.futureIndexShort = 0 then 0
        else ((Calculations.process_data [w6a] 100).get
            ⟨0, by with_unfolding_all decide⟩).raw.futureIndexLong /
          ((Calculations.process_data [w6a] 100).get
            ⟨0, by with_unfolding_all decide⟩).raw.futureIndexShort) ∧
    ((Calculations.process_data [w6a] 100).get ⟨0, by with_unfolding_all decide⟩).stkLSRatio =
      (if ((Calculations.process_data [w6a] 100).get
          ⟨0, by with_unfolding_all decide⟩).raw.futureStockShort = 0 then 0
        else ((Calculations.process_data [w6a] 100).get
            ⟨0, by with_unfolding_all decide⟩).raw.futureStockLong /
          ((Calculations.process_data [w6a] 100).get
            ⟨0, by with_unfolding_all decide⟩).raw.futureStockShort) :=
  C6_ls_ratio_zero_fallback [w6a] 100 _ (List.get_mem _ _ _)

/-- C9: the spot-price injection is exact and frame-preserving: the raw
rows carried by `process_data`'s output are, as a multiset, exactly the
input rows with the supplied spot price written into every row of the
latest date and every other row untouched. -/
theorem C9_spot_injection_frame (rows : List RawRow) (spot : ℚ) :
    ((Calculations.process_data rows spot).map stripRaw).Perm
      (rows.map (fun r => if r.date = dateMax rows
        then { r with niftySpot := FVal.num spot } else r)) := by
  have h1 : (Calculations.process_data rows spot).map stripRaw = sortedView rows spot := by
    unfold Calculations.process_data
    exact map_raw_deriveWith mkDerivedCalc (fun _ _ _ => rfl) _ _
  rw [h1]
  exact sortedView_perm rows spot

/-- C7: `process_data` of `src/utils/calculations.py` is idempotent:
stripping its output back to the raw columns and recomputing with the
same spot price reproduces the identical derived table. -/
theorem C7_idempotent (rows : List RawRow) (spot : ℚ) :
    Calculations.process_data ((Calculations.process_data rows spot).map stripRaw) spot =
      Calculations.process_data rows spot := by
  have h1 : (Calculations.process_data rows spot).map stripRaw = sortedView rows spot := by
    unfold Calculations.process_data
    exact map_raw_deriveWith mkDerivedCalc (fun _ _ _ => rfl) _ _
  rw [h1]
  show deriveWith mkDerivedCalc (sortedView (sortedView rows spot) spot)
      (sortedView (sortedView rows spot) spot) = _
  rw [sortedView_idem]
  rfl

/-- C3 counterexample: an upload whose date already exists in the stored
table is not rejected: the merge succeeds, keeps the uploaded row and
silently discards the stored row of that date, so the state changes. -/
theorem C3_counterexample :
    m3e.date = m3n.date ∧ merge_raw [m3e] [m3n] = [m3n] ∧
    merge_raw [m3e] [m3n] ≠ [m3e] ∧ m3e ∉ merge_raw [m3e] [m3n] := by
  with_unfolding_all decide

/-- C3 amended: the merge step never rejects a date conflict; it keeps
every uploaded row, keeps exactly the existing rows whose date is absent
from the upload, and therefore on disjoint date sets the merged row
count is the sum of the two inputs. -/
theorem C3_merge_counts (existing new_rows : List RawRow) :
    ((∀ r ∈ existing, ∀ n ∈ new_rows, r.date ≠ n.date) →
      (merge_raw existing new_rows).length = existing.length + new_rows.length) ∧
    (∀ n ∈ new_rows, n ∈ merge_raw existing new_rows) ∧
    (∀ r ∈ existing, (∀ n ∈ new_rows, r.date ≠ n.date) →
      r ∈ merge_raw existing new_rows) := by
  cases existing with
  | nil =>
      refine ⟨fun _ => by simp [merge_raw], fun n hn => by simpa [merge_raw] using hn,
        fun r hr => absurd hr (List.not_mem_nil r)⟩
  | cons e es =>
      refine ⟨?_, ?_, ?_⟩
      · intro hdisj
        have hfeq : (e :: es).filter (fun r => !(new_rows.any fun n => n.date == r.date)) =
            e :: es := by
          rw [List.filter_eq_self]
          intro a ha
          simp only [Bool.not_eq_true', List.any_eq_false, beq_iff_eq]
          exact fun n hn h => hdisj a ha n hn h.symm
        rw [merge_raw, if_neg (by simp), hfeq, List.length_append]
      · intro n hn
        rw [merge_raw, if_neg (by simp)]
        exact List.mem_append_right _ hn
      · intro r hr hdisj
        rw [merge_raw, if_neg (by simp)]
        apply List.mem_append_left
        rw [List.mem_filter]
        refine ⟨hr, ?_⟩
        simp only [Bool.not_eq_true', List.any_eq_false, beq_iff_eq]
        exact fun n hn h => hdisj n hn h.symm

/-- C3 witness: merging one stored day-1 row with one uploaded day-2 row
keeps both rows and yields two rows. -/
theorem C3_witness :
    (merge_raw [m3e] [m3d2]).length = [m3e].length + [m3d2].length ∧
    m3d2 ∈ merge_raw [m3e] [m3d2] ∧ m3e ∈ merge_raw [m3e] [m3d2] :=
  ⟨(C3_merge_counts [m3e] [m3d2]).1 (by with_unfolding_all decide),
   (C3_merge_counts [m3e] [m3d2]).2.1 m3d2 (by with_unfolding_all decide),
   (C3_merge_counts [m3e] [m3d2]).2.2 m3e (by with_unfolding_all decide)
     (by with_unfolding_all decide)⟩

/-- C8 counterexample: the merge deduplicates by date alone, not by
`(date, category)`: the stored `DII` day-1 row, whose `(date, category)`
pair does not occur in the upload, is nevertheless discarded because the
uploaded `FII` row shares its date. -/
theorem C8_counterexample :
    (∀ n ∈ [m8n], n.date ≠ m8b.date ∨ n.clientType ≠ m8b.clientType) ∧
    m8b ∈ [m8a, m8b] ∧ m8b ∉ merge_raw [m8a, m8b] [m8n] := by
  with_unfolding_all decide

/-- C8 amended: the merge drops every existing row whose date occurs in
the upload, regardless of category; an existing row survives the merge
exactly when its date is absent from the upload, and every merged row is
either an uploaded row or a surviving existing row whose date no
uploaded row shares (so the two parts cannot collide on a key). -/
theorem C8_merge_by_date (existing new_rows : List RawRow) :
    (∀ r ∈ existing, (∀ n ∈ new_rows, n.date ≠ r.date) →
      r ∈ merge_raw existing new_rows) ∧
    (∀ d ∈ merge_raw existing new_rows,
      d ∈ new_rows ∨ (d ∈ existing ∧ ∀ n ∈ new_rows, n.date ≠ d.date)) := by
  cases existing with
  | nil =>
      refine ⟨fun r hr => absurd hr (List.not_mem_nil r), fun d hd => ?_⟩
      simp only [merge_raw, List.isEmpty_nil, if_true] at hd
      exact Or.inl hd
  | cons e es =>
      refine ⟨?_, ?_⟩
      · intro r hr hdisj
        rw [merge_raw, if_neg (by simp)]
        apply List.mem_append_left
        rw [List.mem_filter]
        refine ⟨hr, ?_⟩
        simp only [Bool.not_eq_true', List.any_eq_false, beq_iff_eq]
        exact hdisj
      · intro d hd
        rw [merge_raw, if_neg (by simp)] at hd
        rcases List.mem_append.mp hd with hd | hd
        · rcases List.mem_filter.mp hd with ⟨hde, hdb⟩
          simp only [Bool.not_eq_true', List.any_eq_false, beq_iff_eq] at hdb
          exact Or.inr ⟨hde, hdb⟩
        · exact Or.inl hd

/-- C8 witness: an existing row whose date is absent from the upload is
preserved, and the merge's membership characterization holds for it. -/
theorem C8_witness :
    m8a ∈ merge_raw [m8a] [m8d2] ∧
    (m8a ∈ [m8d2] ∨ (m8a ∈ [m8a] ∧ ∀ n ∈ [m8d2], n.date ≠ m8a.date)) :=
  ⟨(C8_merge_by_date [m8a] [m8d2]).1 m8a (by with_unfolding_all decide)
     (by with_unfolding_all decide),
   (C8_merge_by_date [m8a] [m8d2]).2 m8a
     ((C8_merge_by_date [m8a] [m8d2]).1 m8a (by with_unfolding_all decide)
       (by with_unfolding_all decide))⟩

/-- C2 (amended): over the sorted table `process_data` computes on, for
every non-aggregate row the consolidated engine's diff cells equal the
row's value minus the next-older same-category row's value (absent dates
skipped), the percentage cells follow `pctSpec` over the same pair, the
second-order `Option ROC` diffs the `NET DIFF` series, and a row with no
older same-category row has every period-over-period cell NaN; aggregate
`TOTAL` rows are excluded from all of this and carry NaN throughout. -/
theorem C2_per_category_diff (rows : List RawRow) (spot : ℚ) (hu : uniqueKeys rows)
    (i : ℕ) (hi : i < (sortedView rows spot).length)
    (hd : i < (Calculations.process_data rows spot).length) :
    (((sortedView rows spot).get ⟨i, hi⟩).isTotal = false →
      (∀ p, isPrevFor (sortedView rows spot) ((sortedView rows spot).get ⟨i, hi⟩) p →
        diffFieldsEq ((Calculations.process_data rows spot).get ⟨i, hd⟩)
          ((sortedView rows spot).get ⟨i, hi⟩) p ∧
        pctSpec ((Calculations.process_data rows spot).get ⟨i, hd⟩).futLongPct
          ((sortedView rows spot).get ⟨i, hi⟩).futureIndexLong p.futureIndexLong ∧
        pctSpec ((Calculations.process_data rows spot).get ⟨i, hd⟩).futShortPct
          ((sortedView rows spot).get ⟨i, hi⟩).futureIndexShort p.futureIndexShort ∧
        pctSpec ((Calculations.process_data rows spot).get ⟨i, hd⟩).stkLongPct
          ((sortedView rows spot).get ⟨i, hi⟩).futureStockLong p.futureStockLong ∧
        pctSpec ((Calculations.process_data rows spot).get ⟨i, hd⟩).stkShortPct
          ((sortedView rows spot).get ⟨i, hi⟩).futureStockShort p.futureStockShort ∧
        ((∀ p2, ¬ isPrevFor (sortedView rows spot) p p2) →
          ((Calculations.process_data rows spot).get ⟨i, hd⟩).optionROC = .nan) ∧
        (∀ p2, isPrevFor (sortedView rows spot) p p2 →
          ((Calculations.process_data rows spot).get ⟨i, hd⟩).optionROC =
            .num (((absChangeCallVal ((sortedView rows spot).get ⟨i, hi⟩) - absChangeCallVal p) -
                (absChangePutVal ((sortedView rows spot).get ⟨i, hi⟩) - absChangePutVal p)) -
              ((absChangeCallVal p - absChangeCallVal p2) -
                (absChangePutVal p - absChangePutVal p2))))) ∧
      ((∀ p, ¬ isPrevFor (sortedView rows spot) ((sortedView rows spot).get ⟨i, hi⟩) p) →
        periodFieldsNan ((Calculations.process_data rows spot).get ⟨i, hd⟩))) ∧
    (((sortedView rows spot).get ⟨i, hi⟩).isTotal = true →
      maskedDiffFieldsNan ((Calculations.process_data rows spot).get ⟨i, hd⟩)) := by
  have hget := processCalc_get rows spot i hi hd
  have hsplit := split_at_get hi
  have hsort := sortedView_pairwise rows spot
  have huS := sortedView_uniqueKeys spot hu
  rw [hget]
  refine ⟨fun hnt => ⟨fun p hp => ?_,
    fun hnp => calc_fields_of_noPrev hsplit hsort huS hnt hnp⟩,
    fun ht => calc_fields_of_total ht⟩
  have h := calc_fields_of_prev hsplit hsort huS hnt hp
  exact ⟨h.1, h.2.1, h.2.2.1, h.2.2.2.1, h.2.2.2.2.1, h.2.2.2.2.2.2.1, h.2.2.2.2.2.2.2⟩

/-- C2 counterexample: for the aggregate `TOTAL` category with two dates
present, the newer row's `Fut Abs Chg Long` is left NaN by the
consolidated engine instead of the per-category difference the claim
requires for every category. -/
theorem C2_counterexample :
    isPrevFor (sortedView [c2a, c2b] 100)
      ((Calculations.process_data [c2a, c2b] 100).get
        ⟨0, by with_unfolding_all decide⟩).raw c2a ∧
    ((Calculations.process_data [c2a, c2b] 100).get
      ⟨0, by with_unfolding_all decide⟩).futAbsChgLong = FVal.nan ∧
    FVal.nan ≠ FVal.num
      (((Calculations.process_data [c2a, c2b] 100).get
        ⟨0, by with_unfolding_all decide⟩).raw.futureIndexLong - c2a.futureIndexLong) := by
  with_unfolding_all decide

/-- C2 witness: a concrete two-date non-aggregate category, evaluated at
the newer row against its next-older row. -/
theorem C2_witness :
    diffFieldsEq ((Calculations.process_data [w2a, w2b] 100).get
        ⟨0, by with_unfolding_all decide⟩)
      ((sortedView [w2a, w2b] 100).get ⟨0, by with_unfolding_all decide⟩) w2a ∧
    pctSpec ((Calculations.process_data [w2a, w2b] 100).get
        ⟨0, by with_unfolding_all decide⟩).futLongPct
      ((sortedView [w2a, w2b] 100).get ⟨0, by with_unfolding_all decide⟩).futureIndexLong
      w2a.futureIndexLong := by
  have h := ((C2_per_category_diff [w2a, w2b] 100 (by with_unfolding_all decide) 0
    (by with_unfolding_all decide) (by with_unfolding_all decide)).1
    (by with_unfolding_all decide)).1 w2a (by with_unfolding_all decide)
  exact ⟨h.1, h.2.1⟩

/-- C1 counterexample: in the consolidated engine a `TOTAL` row that is
not the oldest of its category still carries NaN in `NET CALL (CoC)`,
while identical per-category differencing would give a finite value. -/
theorem C1_counterexample :
    ((Calculations.process_data [c1a, c1b] 100).get
      ⟨0, by with_unfolding_all decide⟩).raw.isTotal = true ∧
    isPrevFor (sortedView [c1a, c1b] 100)
      ((Calculations.process_data [c1a, c1b] 100).get
        ⟨0, by with_unfolding_all decide⟩).raw c1a ∧
    ((Calculations.process_data [c1a, c1b] 100).get
      ⟨0, by with_unfolding_all decide⟩).netCallCoC = FVal.nan ∧
    FVal.nan ≠ FVal.num
      (absChangeCallVal ((Calculations.process_data [c1a, c1b] 100).get
        ⟨0, by with_unfolding_all decide⟩).raw - absChangeCallVal c1a) := by
  with_unfolding_all decide

/-- C1 (amended): the two revisions disagree on aggregate rows.  The
consolidated `src/utils/calculations.py` engine masks every diff-based
cell to NaN on `TOTAL` rows; the `src/app.py` revision differences every
category identically, `TOTAL` included — a `TOTAL` row with a next-older
`TOTAL` row gets the same per-category diffs and percentage cells as any
other category. -/
theorem C1_total_category_differencing (rows : List RawRow) (spot : ℚ) (hu : uniqueKeys rows)
    (i : ℕ) (hi : i < (sortedView rows spot).length)
    (hdC : i < (Calculations.process_data rows spot).length)
    (hdA : i < (App.process_data rows spot).length) :
    (((sortedView rows spot).get ⟨i, hi⟩).isTotal = true →
      maskedDiffFieldsNan ((Calculations.process_data rows spot).get ⟨i, hdC⟩)) ∧
    (∀ p, isPrevFor (sortedView rows spot) ((sortedView rows spot).get ⟨i, hi⟩) p →
      diffFieldsEq ((App.process_data rows spot).get ⟨i, hdA⟩)
        ((sortedView rows spot).get ⟨i, hi⟩) p ∧
      pctSpec ((App.process_data rows spot).get ⟨i, hdA⟩).futLongPct
        ((sortedView rows spot).get ⟨i, hi⟩).futureIndexLong p.futureIndexLong ∧
      pctSpec ((App.process_data rows spot).get ⟨i, hdA⟩).futShortPct
        ((sortedView rows spot).get ⟨i, hi⟩).futureIndexShort p.futureIndexShort ∧
      pctSpec ((App.process_data rows spot).get ⟨i, hdA⟩).stkLongPct
        ((sortedView rows spot).get ⟨i, hi⟩).futureStockLong p.futureStockLong ∧
      pctSpec ((App.process_data rows spot).get ⟨i, hdA⟩).stkShortPct
        ((sortedView rows spot).get ⟨i, hi⟩).futureStockShort p.futureStockShort) := by
  have hgetC := processCalc_get rows spot i hi hdC
  have hgetA := processApp_get rows spot i hi hdA
  have hsplit := split_at_get hi
  have hsort := sortedView_pairwise rows spot
  have huS := sortedView_uniqueKeys spot hu
  rw [hgetC, hgetA]
  refine ⟨fun ht => calc_fields_of_total ht, fun p hp => ?_⟩
  have h := app_fields_of_prev hsplit hsort huS hp
  exact ⟨h.1, h.2.1, h.2.2.1, h.2.2.2.1, h.2.2.2.2.1⟩

/-- C1 witness: a two-date `TOTAL` table: the consolidated engine leaves
the newer row's diff cells NaN while the `app.py` revision differences
them against the older `TOTAL` row. -/
theorem C1_witness :
    maskedDiffFieldsNan ((Calculations.process_data [w1a, w1b] 100).get
      ⟨0, by with_unfolding_all decide⟩) ∧
    diffFieldsEq ((App.process_data [w1a, w1b] 100).get
        ⟨0, by with_unfolding_all decide⟩)
      ((sortedView [w1a, w1b] 100).get ⟨0, by with_unfolding_all decide⟩) w1a := by
  have h := C1_total_category_differencing [w1a, w1b] 100 (by with_unfolding_all decide) 0
    (by with_unfolding_all decide) (by with_unfolding_all decide) (by with_unfolding_all decide)
  exact ⟨h.1 (by with_unfolding_all decide), (h.2 w1a (by with_unfolding_all decide)).1⟩

/-- C5 counterexample: when the next-older same-category value is zero
and the change is nonzero, `Fut Long %` is positive infinity — a value,
not the undefined/null result the claim requires for a zero denominator. -/
theorem C5_counterexample :
    ((Calculations.process_data [c5a, c5b] 100).get
      ⟨0, by with_unfolding_all decide⟩).futLongPct = FVal.inf true ∧
    FVal.inf true ≠ FVal.nan ∧
    isPrevFor (sortedView [c5a, c5b] 100)
      ((Calculations.process_data [c5a, c5b] 100).get
        ⟨0, by with_unfolding_all decide⟩).raw c5a ∧
    c5a.futureIndexLong = 0 := by
  with_unfolding_all decide

/-- C5 (amended): the percentage-change cells are NaN when the row is an
aggregate `TOTAL` row or has no older same-category row; against a
next-older row they follow `pctSpec`: NaN only when the zero denominator
meets a zero change, a signed infinity when the zero denominator meets a
nonzero change, and otherwise exactly diff divided by the next-older
value times 100.  No case raises an error. -/
theorem C5_pct_change_denominator (rows : List RawRow) (spot : ℚ) (hu : uniqueKeys rows)
    (i : ℕ) (hi : i < (sortedView rows spot).length)
    (hd : i < (Calculations.process_data rows spot).length) :
    (((sortedView rows spot).get ⟨i, hi⟩).isTotal = true →
      ((Calculations.process_data rows spot).get ⟨i, hd⟩).futLongPct = .nan ∧
      ((Calculations.process_data rows spot).get ⟨i, hd⟩).futShortPct = .nan ∧
      ((Calculations.process_data rows spot).get ⟨i, hd⟩).stkLongPct = .nan ∧
      ((Calculations.process_data rows spot).get ⟨i, hd⟩).stkShortPct = .nan) ∧
    (((sortedView rows spot).get ⟨i, hi⟩).isTotal = false →
      ((∀ p, ¬ isPrevFor (sortedView rows spot) ((sortedView rows spot).get ⟨i, hi⟩) p) →
        ((Calculations.process_data rows spot).get ⟨i, hd⟩).futLongPct = .nan ∧
        ((Calculations.process_data rows spot).get ⟨i, hd⟩).futShortPct = .nan ∧
        ((Calculations.process_data rows spot).get ⟨i, hd⟩).stkLongPct = .nan ∧
        ((Calculations.process_data rows spot).get ⟨i, hd⟩).stkShortPct = .nan) ∧
      (∀ p, isPrevFor (sortedView rows spot) ((sortedView rows spot).get ⟨i, hi⟩) p →
        pctSpec ((Calculations.process_data rows spot).get ⟨i, hd⟩).futLongPct
          ((sortedView rows spot).get ⟨i, hi⟩).futureIndexLong p.futureIndexLong ∧
        pctSpec ((Calculations.process_data rows spot).get ⟨i, hd⟩).futShortPct
          ((sortedView rows spot).get ⟨i, hi⟩).futureIndexShort p.futureIndexShort ∧
        pctSpec ((Calculations.process_data rows spot).get ⟨i, hd⟩).stkLongPct
          ((sortedView rows spot).get ⟨i, hi⟩).futureStockLong p.futureStockLong ∧
        pctSpec ((Calculations.process_data rows spot).get ⟨i, hd⟩).stkShortPct
          ((sortedView rows spot).get ⟨i, hi⟩).futureStockShort p.futureStockShort)) := by
  have hget := processCalc_get rows spot i hi hd
  have hsplit := split_at_get hi
  have hsort := sortedView_pairwise rows spot
  have huS := sortedView_uniqueKeys spot hu
  rw [hget]
  refine ⟨fun ht => ?_, fun hnt => ⟨fun hnp => ?_, fun p hp => ?_⟩⟩
  · have h := @calc_fields_of_total (sortedView rows spot)
      ((sortedView rows spot).drop (i + 1)) ((sortedView rows spot).get ⟨i, hi⟩) ht
    exact ⟨h.2.2.2.2.2.2.2.1, h.2.2.2.2.2.2.2.2.1, h.2.2.2.2.2.2.2.2.2.2.2.2.1,
      h.2.2.2.2.2.2.2.2.2.2.2.2.2⟩
  · have h := (calc_fields_of_noPrev hsplit hsort huS hnt hnp).1
    exact ⟨h.2.2.2.2.2.2.2.1, h.2.2.2.2.2.2.2.2.1, h.2.2.2.2.2.2.2.2.2.2.2.2.1,
      h.2.2.2.2.2.2.2.2.2.2.2.2.2⟩
  · have h := calc_fields_of_prev hsplit hsort huS hnt hp
    exact ⟨h.2.1, h.2.2.1, h.2.2.2.1, h.2.2.2.2.1⟩

/-- C5 witness: a two-date category with nonzero denominators follows
the exact percentage formula. -/
theorem C5_witness :
    pctSpec ((Calculations.process_data [w5a, w5b] 100).get
        ⟨0, by with_unfolding_all decide⟩).futLongPct
      ((sortedView [w5a, w5b] 100).get ⟨0, by with_unfolding_all decide⟩).futureIndexLong
      w5a.futureIndexLong ∧
    pctSpec ((Calculations.process_data [w5a, w5b] 100).get
        ⟨0, by with_unfolding_all decide⟩).stkShortPct
      ((sortedView [w5a, w5b] 100).get ⟨0, by with_unfolding_all decide⟩).futureStockShort
      w5a.futureStockShort := by
  have h := ((C5_pct_change_denominator [w5a, w5b] 100 (by with_unfolding_all decide) 0
    (by with_unfolding_all decide) (by with_unfolding_all decide)).2
    (by with_unfolding_all decide)).2 w5a (by with_unfolding_all decide)
  exact ⟨h.1, h.2.2.2⟩

/-- C10: in the consolidated engine `Nifty Diff` is the per-category
diff of the spot column for every row — aggregate `TOTAL` rows included,
with no exclusion mask — while on the same `TOTAL` rows every other
diff-based cell of the same function is left NaN. -/
theorem C10_nifty_diff_unmasked (rows : List RawRow) (spot : ℚ) (hu : uniqueKeys rows)
    (i : ℕ) (hi : i < (sortedView rows spot).length)
    (hd : i < (Calculations.process_data rows spot).length) :
    (∀ p, isPrevFor (sortedView rows spot) ((sortedView rows spot).get ⟨i, hi⟩) p →
      ((Calculations.process_data rows spot).get ⟨i, hd⟩).niftyDiff =
        FVal.sub ((sortedView rows spot).get ⟨i, hi⟩).niftySpot p.niftySpot) ∧
    ((∀ p, ¬ isPrevFor (sortedView rows spot) ((sortedView rows spot).get ⟨i, hi⟩) p) →
      ((Calculations.process_data rows spot).get ⟨i, hd⟩).niftyDiff = .nan) ∧
    (((sortedView rows spot).get ⟨i, hi⟩).isTotal = true →
      maskedDiffFieldsNan ((Calculations.process_data rows spot).get ⟨i, hd⟩)) := by
  have hget := processCalc_get rows spot i hi hd
  have hsplit := split_at_get hi
  have hsort := sortedView_pairwise rows spot
  have huS := sortedView_uniqueKeys spot hu
  rw [hget]
  exact ⟨fun p hp => calc_niftyDiff_of_prev hsplit hsort huS hp,
    fun hnp => calc_niftyDiff_of_noPrev hsplit hsort huS hnp,
    fun ht => calc_fields_of_total ht⟩

/-- C10 witness: a two-date `TOTAL` table: the newer `TOTAL` row's
`Nifty Diff` is the injected spot minus the older stored spot while its
other diff cells are all NaN. -/
theorem C10_witness :
    ((Calculations.process_data [w10a, w10b] 100).get
      ⟨0, by with_unfolding_all decide⟩).niftyDiff =
      FVal.sub ((sortedView [w10a, w10b] 100).get
        ⟨0, by with_unfolding_all decide⟩).niftySpot w10a.niftySpot ∧
    maskedDiffFieldsNan ((Calculations.process_data [w10a, w10b] 100).get
      ⟨0, by with_unfolding_all decide⟩) := by
  have h := C10_nifty_diff_unmasked [w10a, w10b] 100 (by with_unfolding_all decide) 0
    (by with_unfolding_all decide) (by with_unfolding_all decide)
  exact ⟨h.1 w10a (by with_unfolding_all decide), h.2.2 (by with_unfolding_all decide)⟩

/-- C4 counterexample: the denominator choice is made once per table,
not per date: here a `TOTAL` row exists (on day 2), so for category `A`
on day 1 — a date with no `TOTAL` row — the consolidated engine maps a
missing key and the share is NaN, instead of the 100 the claim's
per-date sum-of-non-aggregates fallback would give. -/
theorem C4_counterexample :
    ((Calculations.process_data [c4a1, c4a2, c4t2] 100).get
      ⟨2, by with_unfolding_all decide⟩).raw.clientType = "A" ∧
    ((Calculations.process_data [c4a1, c4a2, c4t2] 100).get
      ⟨2, by with_unfolding_all decide⟩).raw.date = 1 ∧
    (∃ t ∈ [c4a1, c4a2, c4t2], t.isTotal = true) ∧
    (∀ t ∈ [c4a1, c4a2, c4t2], t.isTotal = true → t.date ≠ 1) ∧
    (((([c4a1, c4a2, c4t2].filter (fun x => !x.isTotal && x.date == 1)).map
      (fun x => x.futureIndexLong)).sum) = c4a1.futureIndexLong) ∧
    ((Calculations.process_data [c4a1, c4a2, c4t2] 100).get
      ⟨2, by with_unfolding_all decide⟩).futureTotalLongPct = FVal.nan ∧
    FVal.nan ≠ FVal.num 100 := by
  with_unfolding_all decide

/-- C4 (amended): the share denominators are selected once per table.
If any `TOTAL` row exists anywhere, each date's denominator is that
date's `TOTAL` value — NaN share for a date with no `TOTAL` row; only
when the table has no `TOTAL` row at all is the per-date sum of the
non-aggregate rows used.  A zero denominator yields NaN for a zero
numerator and a signed infinity otherwise, never zero. -/
theorem C4_share_denominator (rows : List RawRow) (spot : ℚ)
    (i : ℕ) (hi : i < (sortedView rows spot).length)
    (hd : i < (Calculations.process_data rows spot).length) :
    (∀ t, t ∈ rows → t.isTotal = true →
      t.date = ((sortedView rows spot).get ⟨i, hi⟩).date →
      (∀ t2 ∈ rows, t2.isTotal = true →
        t2.date = ((sortedView rows spot).get ⟨i, hi⟩).date → t2 = t) →
      shareSpec ((Calculations.process_data rows spot).get ⟨i, hd⟩).futureTotalLongPct
        ((sortedView rows spot).get ⟨i, hi⟩).futureIndexLong t.futureIndexLong ∧
      shareSpec ((Calculations.process_data rows spot).get ⟨i, hd⟩).futureTotalShortPct
        ((sortedView rows spot).get ⟨i, hi⟩).futureIndexShort t.futureIndexShort) ∧
    ((∃ t ∈ rows, t.isTotal = true) →
      (∀ t ∈ rows, t.isTotal = true →
        t.date ≠ ((sortedView rows spot).get ⟨i, hi⟩).date) →
      ((Calculations.process_data rows spot).get ⟨i, hd⟩).futureTotalLongPct = FVal.nan ∧
      ((Calculations.process_data rows spot).get ⟨i, hd⟩).futureTotalShortPct = FVal.nan) ∧
    ((∀ t ∈ rows, t.isTotal = false) →
      shareSpec ((Calculations.process_data rows spot).get ⟨i, hd⟩).futureTotalLongPct
        ((sortedView rows spot).get ⟨i, hi⟩).futureIndexLong
        (((rows.filter (fun x => !x.isTotal &&
            x.date == ((sortedView rows spot).get ⟨i, hi⟩).date)).map
          (fun x => x.futureIndexLong)).sum) ∧
      shareSpec ((Calculations.process_data rows spot).get ⟨i, hd⟩).futureTotalShortPct
        ((sortedView rows spot).get ⟨i, hi⟩).futureIndexShort
        (((rows.filter (fun x => !x.isTotal &&
            x.date == ((sortedView rows spot).get ⟨i, hi⟩).date)).map
          (fun x => x.futureIndexShort)).sum)) := by
  have hget := processCalc_get rows spot i hi hd
  rw [hget]
  refine ⟨fun t ht htt htd huni => ?_, fun hex hnone => ?_, fun hnt => ?_⟩
  · obtain ⟨hL, hS⟩ := denom_total_some rows spot ht htt htd huni
    constructor
    · show shareSpec (sharePct ((sortedView rows spot).get ⟨i, hi⟩).futureIndexLong
        (totalLongDenom (sortedView rows spot)
          ((sortedView rows spot).get ⟨i, hi⟩).date)) _ _
      rw [hL]
      exact sharePct_spec _ _
    · show shareSpec (sharePct ((sortedView rows spot).get ⟨i, hi⟩).futureIndexShort
        (totalShortDenom (sortedView rows spot)
          ((sortedView rows spot).get ⟨i, hi⟩).date)) _ _
      rw [hS]
      exact sharePct_spec _ _
  · obtain ⟨hL, hS⟩ := denom_total_absent rows spot hex hnone
    constructor
    · show sharePct ((sortedView rows spot).get ⟨i, hi⟩).futureIndexLong
        (totalLongDenom (sortedView rows spot)
          ((sortedView rows spot).get ⟨i, hi⟩).date) = FVal.nan
      rw [hL]
      exact sharePct_nan _
    · show sharePct ((sortedView rows spot).get ⟨i, hi⟩).futureIndexShort
        (totalShortDenom (sortedView rows spot)
          ((sortedView rows spot).get ⟨i, hi⟩).date) = FVal.nan
      rw [hS]
      exact sharePct_nan _
  · obtain ⟨hL, hS⟩ := denom_no_total rows spot hnt
    constructor
    · show shareSpec (sharePct ((sortedView rows spot).get ⟨i, hi⟩).futureIndexLong
        (totalLongDenom (sortedView rows spot)
          ((sortedView rows spot).get ⟨i, hi⟩).date)) _ _
      rw [hL]
      exact sharePct_spec _ _
    · show shareSpec (sharePct ((sortedView rows spot).get ⟨i, hi⟩).futureIndexShort
        (totalShortDenom (sortedView rows spot)
          ((sortedView rows spot).get ⟨i, hi⟩).date)) _ _
      rw [hS]
      exact sharePct_spec _ _

/-- C4 witness: with a `TOTAL` row on the row's own date the share
follows the `TOTAL` denominator, and on a table with no `TOTAL` row it
follows the per-date sum of the non-aggregate rows. -/
theorem C4_witness :
    shareSpec ((Calculations.process_data [w4t1, w4a1] 100).get
        ⟨0, by with_unfolding_all decide⟩).futureTotalLongPct
      ((sortedView [w4t1, w4a1] 100).get ⟨0, by with_unfolding_all decide⟩).futureIndexLong
      w4t1.futureIndexLong ∧
    shareSpec ((Calculations.process_data [w4a1, w4b1] 100).get
        ⟨0, by with_unfolding_all decide⟩).futureTotalLongPct
      ((sortedView [w4a1, w4b1] 100).get ⟨0, by with_unfolding_all decide⟩).futureIndexLong
      ((([w4a1, w4b1].filter (fun x => !x.isTotal &&
          x.date == ((sortedView [w4a1, w4b1] 100).get
            ⟨0, by with_unfolding_all decide⟩).date)).map
        (fun x => x.futureIndexLong)).sum) := by
  refine ⟨?_, ?_⟩
  · exact ((C4_share_denominator [w4t1, w4a1] 100 0 (by with_unfolding_all decide)
      (by with_unfolding_all decide)).1 w4t1 (by with_unfolding_all decide)
      (by with_unfolding_all decide) (by with_unfolding_all decide)
      (by with_unfolding_all decide)).1
  · exact ((C4_share_denominator [w4a1, w4b1] 100 0 (by with_unfolding_all decide)
      (by with_unfolding_all decide)).2.2 (by with_unfolding_all decide)).1
